import Mathlib

/-!
Verification development for the Emergency-department-display repository
(`moh_scraper.py`, `shift_parser.py`).  Python strings are modelled as
`List Char`; Python text operations (`strip`, `split`, substring tests,
`int(...)`, `str.upper()`) are given explicit structural definitions so that
every function is executable by the kernel.
-/

set_option maxHeartbeats 1000000

abbrev Str := List Char

/-- Whitespace test used by Python `str.strip()` (ASCII whitespace suffices for
the characters appearing in these documents). -/
def isWs (c : Char) : Bool := c = ' ' ∨ c = '\t' ∨ c = '\n' ∨ c = '\r' ∨ c = '\x0b' ∨ c = '\x0c'

/-- Model of Python `str.strip()`: drop whitespace from both ends. -/
def strip (s : Str) : Str :=
  ((s.dropWhile isWs).reverse.dropWhile isWs).reverse

/-- Boolean test that `pat` occurs at the start of `s` (Python `str.startswith`). -/
def startsWith : Str → Str → Bool
  | [], _ => true
  | _ :: _, [] => false
  | p :: ps, c :: cs => p = c && startsWith ps cs

/-- Boolean test that `pat` occurs somewhere inside `s` (Python `pat in s`). -/
def containsSub (pat : Str) : Str → Bool
  | [] => pat.isEmpty
  | c :: cs => startsWith pat (c :: cs) || containsSub pat cs

/-- Split a character list on every occurrence of the four-character token
`Γ.Ν.` (the second alternative of the regex `\n|Γ\.Ν\.` used by
`MOHHospitalScraper._extract_hospital_names`). -/
def splitGN : Str → List Str
  | 'Γ' :: '.' :: 'Ν' :: '.' :: rest => [] :: splitGN rest
  | c :: rest => (splitGN rest).modifyHead (fun r => c :: r)
  | [] => [[]]

/-- Decimal digit value of a character, `none` when not an ASCII digit. -/
def charDigit (c : Char) : Option Nat :=
  if c = '0' then some 0
  else if c = '1' then some 1
  else if c = '2' then some 2
  else if c = '3' then some 3
  else if c = '4' then some 4
  else if c = '5' then some 5
  else if c = '6' then some 6
  else if c = '7' then some 7
  else if c = '8' then some 8
  else if c = '9' then some 9
  else none

/-- Character for a decimal digit value (values above 9 never occur). -/
def digitChar (d : Nat) : Char :=
  if d = 0 then '0'
  else if d = 1 then '1'
  else if d = 2 then '2'
  else if d = 3 then '3'
  else if d = 4 then '4'
  else if d = 5 then '5'
  else if d = 6 then '6'
  else if d = 7 then '7'
  else if d = 8 then '8'
  else '9'

/-- Numeric value of a list of decimal digit values, most significant first. -/
def digitsVal (ds : List Nat) : Nat := ds.foldl (fun a d => a * 10 + d) 0

/-- Decimal digits of `n`, most significant first, computed with explicit fuel
so that the definition is structurally recursive (and hence kernel-reducible). -/
def natDigitsAux : Nat → Nat → List Nat
  | 0, _ => []
  | fuel + 1, n => if n < 10 then [n] else natDigitsAux fuel (n / 10) ++ [n % 10]

/-- Decimal digits of `n`, most significant first. -/
def natDigits (n : Nat) : List Nat := natDigitsAux (n + 1) n

/-- Model of Python `str(i)` for an integer. -/
def intToStr (i : Int) : Str :=
  if i < 0 then '-' :: (natDigits i.natAbs).map digitChar
  else (natDigits i.natAbs).map digitChar

/-- Parse a nonempty all-digit character list as a natural number. -/
def parseDigits (ds : Str) : Option Nat :=
  match ds.mapM charDigit with
  | some vs => if vs.isEmpty then none else some (digitsVal vs)
  | none => none

/-- Model of Python `int(s)` on strings: surrounding whitespace is stripped, an
optional single sign is allowed, and the remainder must be nonempty ASCII
digits (underscore grouping and non-ASCII digits are not used by these
documents and are not modelled). -/
def pyInt (s : Str) : Option Int :=
  match strip s with
  | [] => none
  | c :: rest =>
    if c = '+' then (parseDigits rest).map Int.ofNat
    else if c = '-' then (parseDigits rest).map (fun n => -(n : Int))
    else (parseDigits (c :: rest)).map Int.ofNat

/-- Uppercasing of a single character as Python `str.upper()` performs it,
restricted to ASCII letters and the unaccented/basic Greek range actually
occurring in these documents; other characters are returned unchanged. -/
def upperChar (c : Char) : Char :=
  if 'a' ≤ c ∧ c ≤ 'z' then Char.ofNat (c.toNat - 32)
  else if c = 'ς' then 'Σ'
  else if 'α' ≤ c ∧ c ≤ 'ω' then Char.ofNat (c.toNat - 32)
  else if c = 'ά' then 'Ά'
  else if c = 'έ' then 'Έ'
  else if c = 'ή' then 'Ή'
  else if c = 'ί' then 'Ί'
  else if c = 'ό' then 'Ό'
  else if c = 'ύ' then 'Ύ'
  else if c = 'ώ' then 'Ώ'
  else c

/-- Word-character test for the `\b` boundaries of the year regex
`\b(20\d{2})\b` (ASCII alphanumerics, underscore, and Greek letters). -/
def isWordChar (c : Char) : Bool :=
  c.isAlphanum || c = '_' || (('Ͱ' ≤ c ∧ c ≤ 'Ͽ') : Bool) || (('ἀ' ≤ c ∧ c ≤ '῾') : Bool)

/-- Attempt to match the regex `\b(20\d{2})\b` at the current position, where
`prev` is the character just before the position (`none` at the start of the
string). -/
def yearHere (prev : Option Char) : Str → Option Nat
  | '2' :: '0' :: d1 :: d2 :: rest =>
    match charDigit d1, charDigit d2 with
    | some v1, some v2 =>
      let okL := match prev with
        | none => true
        | some p => !isWordChar p
      let okR := match rest with
        | [] => true
        | r :: _ => !isWordChar r
      if okL && okR then some (2000 + v1 * 10 + v2) else none
    | _, _ => none
  | _ => none

/-- Left-to-right scan implementing `re.search(r'\b(20\d{2})\b', text)`. -/
def findYear (prev : Option Char) : Str → Option Nat
  | [] => none
  | c :: rest =>
    match yearHere prev (c :: rest) with
    | some y => some y
    | none => findYear (some c) rest

/-!
Model of `moh_scraper.py`.
-/

/-- Record produced for each on-duty entry (dataclass `Hospital`; the unused
`address`/`phone`/`area` fields default to the empty string). -/
structure Hospital where
  name : Str
  specialty : Str
  time_slot : Str
  on_duty_date : Str
  address : Str := []
  phone : Str := []
  area : Str := []
  deriving DecidableEq, Repr

/-- Hospital abbreviation to full-name registry `HOSPITAL_NAMES`, in insertion
order (Python dicts iterate in insertion order). -/
def HOSPITAL_NAMES : List (Str × Str) :=
  [("ΕΥΑΓΓΕΛΙΣΜΟΣ".data, "Γενικό Νοσοκομείο Αθηνών «Ο Ευαγγελισμός»".data),
   ("ΛΑΪΚΟ".data, "Γενικό Νοσοκομείο Αθηνών «Λαϊκό»".data),
   ("ΕΛΠΙΣ".data, "Γενικό Νοσοκομείο Αθηνών «Ελπίς»".data),
   ("ΑΓ. ΑΝΑΡΓΥΡΟΙ".data, "Γενικό Οικουμενικό Νοσοκομείο Κρατικό «Άγιοι Ανάργυροι»".data),
   ("ΣΙΣΜΑΝΟΓΛΕΙΟ".data, "Γενικό Νοσοκομείο Αθηνών «Σισμανόγλειο»".data),
   ("ΠΑΜΜΑΚΑΡΙΣΤΟΣ".data, "Γενικό Νοσοκομείο Αθηνών «Παμμακάριστος»".data),
   ("ΑΤΤΙΚΟΝ".data, "Πανεπιστημιακό Γενικό Νοσοκομείο «Αττικόν»".data),
   ("ΚΑΤ".data, "Γενικό Νοσοκομείο Αθηνών «ΚΑΤ»".data),
   ("ΑΣΚΛΗΠΙΕΙΟ".data, "Γενικό Νοσοκομείο «Ασκληπιείο» Βούλας".data),
   ("ΚΩΝ/ΠΟΥΛΕΙΟ".data, "Γενικό Νοσοκομείο Νέας Ιωνίας «Κωνσταντοπούλειο»".data),
   ("ΠΕΙΡΑΙΑΣ".data, "Γενικό Νοσοκομείο Πειραιώς «Τζάνειο»".data),
   ("ΑΛΕΞΑΝΔΡΑ".data, "Γενικό Νοσοκομείο Αθηνών «Αλεξάνδρα»".data),
   ("ΑΡΕΤΑΙΕΙΟ".data, "Γενικό Νοσοκομείο Αθηνών «Αρεταίειο»".data),
   ("ΕΛ. ΒΕΝΙΖΕΛΟΥ".data, "Γενικό Μαιευτικό «Ελένα Βενιζέλου»".data),
   ("ΠΕΝΤΕΛΗΣ".data, "Γενικό Νοσοκομείο Παίδων «Πεντέλης»".data),
   ("ΑΓΛ. ΚΥΡΙΑΚΟΥ".data, "Γενικό Νοσοκομείο Παίδων Αττικής «Αγλαΐα Κυριακού»".data),
   ("ΣΩΤΗΡΙΑ".data, "Νοσοκομείο Θώρακος Αθηνών «Σωτηρία»".data),
   ("ΙΠΠΟΚΡΑΤΕΙΟ".data, "Γενικό Νοσοκομείο Αθηνών «Ιπποκράτειο»".data),
   ("ΔΡΟΜΟΚΑΪΤΕΙΟ".data, "Ψυχιατρικό Νοσοκομείο Αττικής «Δρομοκαΐτειο»".data),
   ("Α. ΣΥΓΓΡΟΣ".data, "Νοσηλευτικό Δερματολογικό Νοσοκομείο Αθηνών «Ανδρέας Συγγρός»".data),
   ("ΟΦΘΑΛΜΙΑΤΡΕΙΟ".data, "Νοσηλευτικό Οφθαλμιατρείο Αθηνών".data),
   ("ΑΓ. ΣΑΒΒΑΣ".data, "Αντικαρκινικό-Ογκολογικό Νοσοκομείο Αθηνών «Άγιος Σάββας»".data),
   ("Γ. ΓΕΝΝΗΜΑΤΑΣ".data, "Γενικό Νοσοκομείο Αθηνών «Γεώργιος Γεννηματάς»".data),
   ("ΚΟΡΓ. ΜΠΕΝ. ΕΕΣ".data, "Γενικό Νοσοκομείο Αθηνών «Κοργιαλένειο-Μπενάκειο Ε.Ε.Σ.»".data)]

/-- Raw-specialty-label to normalized bilingual label registry
`SPECIALTY_NAMES`, in insertion order. -/
def SPECIALTY_NAMES : List (Str × Str) :=
  [("Παθολογική".data, "Παθολογία / Internal Medicine".data),
   ("Καρδιολογική".data, "Καρδιολογία / Cardiology".data),
   ("Χειρουργική".data, "Χειρουργική / Surgery".data),
   ("Αγγειοχειρ/κή".data, "Αγγειοχειρουργική / Vascular Surgery".data),
   ("Αιματολογική".data, "Αιματολογία / Hematology".data),
   ("Γαστρεντερ/γική".data, "Γαστρεντερολογία / Gastroenterology".data),
   ("Γναθοχειρουργική".data, "Γναθοχειρουργική / Maxillofacial Surgery".data),
   ("Δερματολογική".data, "Δερματολογία / Dermatology".data),
   ("Ενδοκρινολογική".data, "Ενδοκρινολογία / Endocrinology".data),
   ("Θωρακοχειρ/γική".data, "Θωρακοχειρουργική / Thoracic Surgery".data),
   ("Καρδιοχειρ/κή".data, "Καρδιοχειρουργική / Cardiac Surgery".data),
   ("Νευρολογική".data, "Νευρολογία / Neurology".data),
   ("Νευροχειρουργική".data, "Νευροχειρουργική / Neurosurgery".data),
   ("Νεφρολογική".data, "Νεφρολογία / Nephrology".data),
   ("Ογκολογική".data, "Ογκολογία / Oncology".data),
   ("Οδοντιατρική".data, "Οδοντιατρική / Dentistry".data),
   ("Ορθοπαιδική".data, "Ορθοπεδική / Orthopedics".data),
   ("Ουρολογική".data, "Ουρολογία / Urology".data),
   ("Οφθαλμολογική".data, "Οφθαλμολογία / Ophthalmology".data),
   ("Πνευμονολογική".data, "Πνευμονολογία / Pulmonology".data),
   ("Πλαστ. Χειρουργική".data, "Πλαστική Χειρουργική / Plastic Surgery".data),
   ("Ρευματολογική".data, "Ρευματολογία / Rheumatology".data),
   ("Ψυχιατρική".data, "Ψυχιατρική / Psychiatry".data),
   ("Ω.Ρ.Λ.".data, "Ωτορινολαρυγγολογία / ENT".data),
   ("Γυναικολογική".data, "Γυναικολογία / Gynecology".data),
   ("Μαιευτική".data, "Μαιευτική / Obstetrics".data),
   ("Παιδιατρικό".data, "Παιδιατρική / Pediatrics".data),
   ("Παιδοψυχιατρική".data, "Παιδοψυχιατρική / Child Psychiatry".data)]

/-- Fragment list of a raw cell, mirroring
`re.split(r'\n|Γ\.Ν\.', text)`: splitting on newlines and then on the
embedded `Γ.Ν.` token yields the same flat fragment list as the combined
regex split, in the same order. -/
def cellFragments (text : Str) : List Str :=
  (text.splitOn '\n').flatMap splitGN

/-- Reattach the primary institutional token to a fragment that does not
already start with one of the three recognized prefix letters (the
`line = 'Γ.Ν.' + line` step). -/
def prepLine (s : Str) : Str :=
  if !(startsWith ('Γ' :: '.' :: []) s) && !(startsWith ('Π' :: '.' :: []) s)
      && !(startsWith ('Ν' :: '.' :: []) s) then
    'Γ' :: '.' :: 'Ν' :: '.' :: s
  else s

/-- Institution-likeness test of the fallback branch: the line is kept only if
it still contains one of the recognized prefix substrings. -/
def instLike (s : Str) : Bool :=
  containsSub ("Γ.Ν.".data) s || containsSub ("Π.Γ.Ν.".data) s || containsSub ("Ν.".data) s

/-- Processing of one raw fragment of the loop body of
`_extract_hospital_names`: strip it, drop it when empty, reattach the prefix,
then resolve it against the registry (first containment match wins), keeping
unmatched institution-like lines as they stand and dropping the rest. -/
def processLine (ℓ : Str) : Option Str :=
  let s := strip ℓ
  if s.isEmpty then none
  else
    let line := prepLine s
    match HOSPITAL_NAMES.find? (fun p => containsSub p.1 line) with
    | some p => some p.2
    | none => if instLike line then some line else none

/-- Model of `MOHHospitalScraper._extract_hospital_names`. -/
def extractHospitalNames (text : Str) : List Str :=
  if (strip text).isEmpty then []
  else (cellFragments text).filterMap processLine

/-- Fixed column-index to time-slot-label table of `parse_pdf`. -/
def timeSlots : List (Str × Nat) :=
  [("08:00-14:30".data, 1),
   ("08:00-16:00".data, 2),
   ("08:00-23:00".data, 3),
   ("14:30-08:00 επομένης".data, 4),
   ("08:00-08:00 επομένης".data, 5)]

/-- Rows extracted by `pdfplumber` may contain `None` cells, modelled as
`Option Str`. -/
abbrev PdfRow := List (Option Str)

/-- Table extracted from a PDF page. -/
abbrev PdfTable := List PdfRow

/-- Marker token identifying the header row of a duty table. -/
def headerMarker : Str := "Κλινικές".data

/-- Header-row test `row and 'Κλινικές' in str(row)`: the row is nonempty and
some cell contains the marker (the marker contains no quote or comma
characters, so it cannot straddle the cell separators of `str(row)`). -/
def rowHasMarker (row : PdfRow) : Bool :=
  !row.isEmpty && row.any (fun c =>
    match c with
    | some s => containsSub headerMarker s
    | none => false)

/-- Specialty label of a row: `row[0].strip() if row[0] else ""`. -/
def rowSpecialty (row : PdfRow) : Str :=
  match row.getD 0 none with
  | some s => strip s
  | none => []

/-- Normalized display name of a raw specialty label:
`SPECIALTY_NAMES.get(specialty, specialty)`. -/
def specialtyDisplay (specialty : Str) : Str :=
  match SPECIALTY_NAMES.find? (fun p => p.1 = specialty) with
  | some p => p.2
  | none => specialty

/-- Records contributed by a single data row of a duty table
(`parse_pdf`, inner loop). -/
def parseRowRecords (dutyDate : Str) (row : PdfRow) : List Hospital :=
  if row.length < 2 then []
  else if (rowSpecialty row).isEmpty || rowSpecialty row = headerMarker then []
  else
    timeSlots.flatMap (fun slot =>
      if slot.2 < row.length then
        match row.getD slot.2 none with
        | some cell =>
          if cell.isEmpty then []
          else (extractHospitalNames cell).map (fun n =>
            { name := n, specialty := specialtyDisplay (rowSpecialty row),
              time_slot := slot.1, on_duty_date := dutyDate })
        | none => []
      else [])

/-- Records contributed by one extracted table of `parse_pdf`: tables with
fewer than 2 rows or without a header row among the first 5 are skipped. -/
def parseTableRecords (dutyDate : Str) (table : PdfTable) : List Hospital :=
  if table.length < 2 then []
  else
    match (table.take 5).findIdx? rowHasMarker with
    | none => []
    | some i => (table.drop (i + 1)).flatMap (parseRowRecords dutyDate)

/-- Model of `MOHHospitalScraper.parse_pdf`: the PDF is abstracted to the list
of tables that `pdfplumber` extracts from its pages, concatenated in page
order. -/
def parsePdf (tables : List PdfTable) (dutyDate : Str) : List Hospital :=
  tables.flatMap (parseTableRecords dutyDate)

/-!
Date resolution of `MOHHospitalScraper.get_schedule_for_date`.  The network
listing returned by `get_available_files` is abstracted as a list of entries
(link text, fdl identifier, format tag), and the document fetch plus
`pdfplumber` table extraction is abstracted as a function from the fdl
identifier to the extracted tables (`none` for a failed download).
-/

/-- Entry of the source listing: link text, fdl identifier, `pdf`/`doc` tag. -/
structure FileEntry where
  text : Str
  fdl : Str
  ftype : Str
  deriving DecidableEq, Repr

/-- Calendar date (`datetime.date`): month is always in 1..12 for a real date. -/
structure GDate where
  year : Nat
  month : Nat
  day : Nat
  deriving DecidableEq, Repr

/-- Genitive Greek month names of the `greek_months` table in
`get_schedule_for_date`. -/
def greekMonthGen (m : Nat) : Str :=
  match m with
  | 1 => "ΙΑΝΟΥΑΡΙΟΥ".data
  | 2 => "ΦΕΒΡΟΥΑΡΙΟΥ".data
  | 3 => "ΜΑΡΤΙΟΥ".data
  | 4 => "ΑΠΡΙΛΙΟΥ".data
  | 5 => "ΜΑΪΟΥ".data
  | 6 => "ΙΟΥΝΙΟΥ".data
  | 7 => "ΙΟΥΛΙΟΥ".data
  | 8 => "ΑΥΓΟΥΣΤΟΥ".data
  | 9 => "ΣΕΠΤΕΜΒΡΙΟΥ".data
  | 10 => "ΟΚΤΩΒΡΙΟΥ".data
  | 11 => "ΝΟΕΜΒΡΙΟΥ".data
  | 12 => "ΔΕΚΕΜΒΡΙΟΥ".data
  | _ => []

/-- Label `f"{target_date.day} {greek_months[target_date.month]} {target_date.year}"`
constructed to match the source listing. -/
def dateLabel (d : GDate) : Str :=
  intToStr (Int.ofNat d.day) ++ [' '] ++ greekMonthGen d.month ++ [' '] ++ intToStr (Int.ofNat d.year)

/-- Zero-padded two-digit rendering used by `date.isoformat()`. -/
def pad2 (n : Nat) : Str :=
  if n < 10 then '0' :: (natDigits n).map digitChar else (natDigits n).map digitChar

/-- Model of `target_date.isoformat()`. -/
def isoDate (d : GDate) : Str :=
  (natDigits d.year).map digitChar ++ ['-'] ++ pad2 d.month ++ ['-'] ++ pad2 d.day

/-- Model of `MOHHospitalScraper.parse_doc`: the legacy DOC branch never
produces records (stub in the source). -/
def parseDoc : List Hospital := []

/-- Model of `MOHHospitalScraper.get_schedule_for_date`. -/
def getScheduleForDate (files : List FileEntry) (fetch : Str → Option (List PdfTable))
    (d : GDate) : List Hospital :=
  let dateStr := dateLabel d
  match files.find? (fun f => containsSub dateStr f.text) with
  | none => []
  | some f =>
    match fetch f.fdl with
    | none => []
    | some tables =>
      if f.ftype = "pdf".data then parsePdf tables (isoDate d) else parseDoc

/-!
Model of `shift_parser.py`.
-/

/-- Dataclass `DailyShift`: one day's merged shift record. -/
structure DailyShift where
  day : Int
  month_name : Str
  weekday : Str
  attendings : List Str
  major_shift : Option Str := none
  minor_shift : Option Str := none
  tep_cardiologist : Option Str := none
  senior_cardiac_surgeon : Option Str := none
  junior_cardiac_surgeon : Option Str := none
  anesthesiologist_1 : Option Str := none
  anesthesiologist_2 : Option Str := none
  pediatric_cardiologist : Option Str := none
  deriving DecidableEq, Repr

/-- Greek month-name to month-number table `GREEK_MONTHS`, in insertion order. -/
def GREEK_MONTHS : List (Str × Nat) :=
  [("ΙΑΝΟΥΑΡΙΟΣ".data, 1), ("ΙΑΝΟΥΑΡΙΟΥ".data, 1),
   ("ΦΕΒΡΟΥΑΡΙΟΣ".data, 2), ("ΦΕΒΡΟΥΑΡΙΟΥ".data, 2),
   ("ΜΑΡΤΙΟΣ".data, 3), ("ΜΑΡΤΙΟΥ".data, 3),
   ("ΑΠΡΙΛΙΟΣ".data, 4), ("ΑΠΡΙΛΙΟΥ".data, 4),
   ("ΜΑΪΟΣ".data, 5), ("ΜΑΙΟΥ".data, 5),
   ("ΙΟΥΝΙΟΣ".data, 6), ("ΙΟΥΝΙΟΥ".data, 6),
   ("ΙΟΥΛΙΟΣ".data, 7), ("ΙΟΥΛΙΟΥ".data, 7),
   ("ΑΥΓΟΥΣΤΟΣ".data, 8), ("ΑΥΓΟΥΣΤΟΥ".data, 8),
   ("ΣΕΠΤΕΜΒΡΙΟΣ".data, 9), ("ΣΕΠΤΕΜΒΡΙΟΥ".data, 9),
   ("ΟΚΤΩΒΡΙΟΣ".data, 10), ("ΟΚΤΩΒΡΙΟΥ".data, 10),
   ("ΝΟΕΜΒΡΙΟΣ".data, 11), ("ΝΟΕΜΒΡΙΟΥ".data, 11),
   ("ΔΕΚΕΜΒΡΙΟΣ".data, 12), ("ΔΕΚΕΜΒΡΙΟΥ".data, 12)]

/-- The in-memory day-to-record dictionary `self.shifts`, modelled as an
association list in insertion order (Python dicts preserve insertion order). -/
abbrev Shifts := List (Int × DailyShift)

/-- Dictionary lookup `self.shifts.get(day)`. -/
def lookupShift : Shifts → Int → Option DailyShift
  | [], _ => none
  | p :: rest, d => if p.1 = d then some p.2 else lookupShift rest d

/-- Dictionary assignment `self.shifts[day] = v`: replaces the entry in place
when the key exists, otherwise appends at the end (Python insertion-order
semantics; keys are unique in every dictionary built by these operations). -/
def setShift : Shifts → Int → DailyShift → Shifts
  | [], d, v => [(d, v)]
  | p :: rest, d, v => if p.1 = d then (d, v) :: rest else p :: setShift rest d v

/-- Table rows are lists of raw cell texts (`cell.text` of each cell). -/
abbrev DocxRow := List Str

/-- Division of one raw multi-line name cell of the attending table: split on
newline, strip, drop empties and names containing an asterisk. -/
def attendingNames (namesRaw : Str) : List Str :=
  (namesRaw.splitOn '\n').filterMap (fun n =>
    let n' := strip n
    if !n'.isEmpty && !n'.contains '*' then some n' else none)

/-- Data read from one row of the attending table: integer day, month-name
cell, weekday cell, parsed attending names; `none` when the row has fewer than
4 cells or a non-integer day cell (such rows are skipped). -/
def attRowParse (row : DocxRow) : Option (Int × Str × Str × List Str) :=
  let cells := row.map strip
  if cells.length < 4 then none
  else
    (pyInt (cells.getD 0 [])).map (fun day =>
      (day, cells.getD 1 [], cells.getD 2 [], attendingNames (cells.getD 3 [])))

/-- Effect of one row of the attending table (`_parse_attending_table` body):
create the day's record or overwrite its attending list. -/
def attStep (s : Shifts) (row : DocxRow) : Shifts :=
  match attRowParse row with
  | none => s
  | some (day, mn, wd, names) =>
    match lookupShift s day with
    | none =>
      setShift s day { day := day, month_name := mn, weekday := wd, attendings := names }
    | some rec => setShift s day { rec with attendings := names }

/-- Model of `ShiftParser._parse_attending_table`. -/
def parseAttendingTable (table : List DocxRow) (s : Shifts) : Shifts :=
  table.foldl attStep s

/-- Empty-string cells become unset fields (`cells[i] if cells[i] else None`). -/
def optCell (s : Str) : Option Str :=
  if s.isEmpty then none else some s

/-- Role fields read from columns 3..8 of a resident-table row. -/
structure ResRoles where
  major_shift : Option Str
  minor_shift : Option Str
  tep_cardiologist : Option Str
  anesthesiologist_1 : Option Str
  anesthesiologist_2 : Option Str
  pediatric_cardiologist : Option Str
  deriving DecidableEq, Repr

/-- Data read from one non-header row of the resident table: integer day,
month-name cell, weekday cell, and the six role fields; `none` when the row
has fewer than 6 cells or a non-integer day cell (such rows are skipped). -/
def resRowParse (row : DocxRow) : Option (Int × Str × Str × ResRoles) :=
  let cells := row.map strip
  if cells.length < 6 then none
  else
    (pyInt (cells.getD 0 [])).map (fun day =>
      (day, cells.getD 1 [], cells.getD 2 [],
       { major_shift := optCell (cells.getD 3 []),
         minor_shift := optCell (cells.getD 4 []),
         tep_cardiologist := optCell (cells.getD 5 []),
         anesthesiologist_1 := if cells.length > 6 then optCell (cells.getD 6 []) else none,
         anesthesiologist_2 := if cells.length > 7 then optCell (cells.getD 7 []) else none,
         pediatric_cardiologist := if cells.length > 8 then optCell (cells.getD 8 []) else none }))

/-- Overwrite the six role fields of a record with freshly parsed values
(the assignment block of `_parse_resident_table`). -/
def applyRoles (rec : DailyShift) (r : ResRoles) : DailyShift :=
  { rec with major_shift := r.major_shift, minor_shift := r.minor_shift,
             tep_cardiologist := r.tep_cardiologist,
             anesthesiologist_1 := r.anesthesiologist_1,
             anesthesiologist_2 := r.anesthesiologist_2,
             pediatric_cardiologist := r.pediatric_cardiologist }

/-- Effect of one non-header row of the resident table
(`_parse_resident_table` body): patch the day's record if present, otherwise
create a record with an empty attending list (and the cardiac-surgeon fields
at their dataclass default, unset). -/
def resStep (s : Shifts) (row : DocxRow) : Shifts :=
  match resRowParse row with
  | none => s
  | some (day, mn, wd, roles) =>
    match lookupShift s day with
    | some rec => setShift s day (applyRoles rec roles)
    | none =>
      setShift s day
        (applyRoles { day := day, month_name := mn, weekday := wd, attendings := [] } roles)

/-- Model of `ShiftParser._parse_resident_table` (row 0 is the header row and
is skipped unconditionally). -/
def parseResidentTable (table : List DocxRow) (s : Shifts) : Shifts :=
  (table.drop 1).foldl resStep s

/-- Paragraph test of `_extract_month_year`: the uppercased stripped text
contains some Greek month name, and the year regex finds a match in it. -/
def hasMarker (p : Str) : Bool :=
  let t := (strip p).map upperChar
  GREEK_MONTHS.any (fun q => containsSub q.1 t) && (findYear none t).isSome

/-- Month/year extracted from one paragraph: the first month name (in table
order) contained in the text, paired with the regex-extracted year. -/
def paraMonthYear (p : Str) : Option (Nat × Nat) :=
  let t := (strip p).map upperChar
  GREEK_MONTHS.findSome? (fun q =>
    if containsSub q.1 t then (findYear none t).map (fun y => (q.2, y)) else none)

/-- Model of `ShiftParser._extract_month_year`: scan the paragraphs and stop at
the first one yielding both a month and a year. -/
def extractMonthYear : List Str → Option (Nat × Nat)
  | [] => none
  | p :: rest =>
    match paraMonthYear p with
    | some r => some r
    | none => extractMonthYear rest

/-- DOCX document abstracted to its paragraph texts and its tables of raw cell
texts. -/
structure ShiftDoc where
  paragraphs : List Str
  tables : List (List DocxRow)
  deriving Repr

/-- Result of a successful parse: month number, year, and the day-to-record
dictionary. -/
structure MonthShiftSet where
  month : Nat
  year : Nat
  shifts : Shifts
  deriving DecidableEq, Repr

/-- Model of `ShiftParser.parse`: `none` models the `False` (failure) return.
The attending table is `tables[0]`, the resident table `tables[1]`. -/
def shiftParse (doc : ShiftDoc) : Option MonthShiftSet :=
  match extractMonthYear doc.paragraphs with
  | none => none
  | some (m, y) =>
    match doc.tables with
    | t1 :: t2 :: _ =>
      some { month := m, year := y,
             shifts := parseResidentTable t2 (parseAttendingTable t1 []) }
    | _ => none

/-- Recognized non-attendings field names of `update_shift`. -/
def roleFields : List Str :=
  [("major_shift".data), ("minor_shift".data), ("tep_cardiologist".data),
   ("senior_cardiac_surgeon".data), ("junior_cardiac_surgeon".data),
   ("anesthesiologist_1".data), ("anesthesiologist_2".data),
   ("pediatric_cardiologist".data)]

/-- Write one optional role field selected by name. -/
def setRoleField (rec : DailyShift) (field : Str) (v : Option Str) : DailyShift :=
  if field = "major_shift".data then { rec with major_shift := v }
  else if field = "minor_shift".data then { rec with minor_shift := v }
  else if field = "tep_cardiologist".data then { rec with tep_cardiologist := v }
  else if field = "senior_cardiac_surgeon".data then { rec with senior_cardiac_surgeon := v }
  else if field = "junior_cardiac_surgeon".data then { rec with junior_cardiac_surgeon := v }
  else if field = "anesthesiologist_1".data then { rec with anesthesiologist_1 := v }
  else if field = "anesthesiologist_2".data then { rec with anesthesiologist_2 := v }
  else if field = "pediatric_cardiologist".data then { rec with pediatric_cardiologist := v }
  else rec

/-- Read one optional role field selected by name. -/
def getRoleField (rec : DailyShift) (field : Str) : Option Str :=
  if field = "major_shift".data then rec.major_shift
  else if field = "minor_shift".data then rec.minor_shift
  else if field = "tep_cardiologist".data then rec.tep_cardiologist
  else if field = "senior_cardiac_surgeon".data then rec.senior_cardiac_surgeon
  else if field = "junior_cardiac_surgeon".data then rec.junior_cardiac_surgeon
  else if field = "anesthesiologist_1".data then rec.anesthesiologist_1
  else if field = "anesthesiologist_2".data then rec.anesthesiologist_2
  else if field = "pediatric_cardiologist".data then rec.pediatric_cardiologist
  else none

/-- Comma-splitting of an attendings value:
`[name.strip() for name in value.split(',') if name.strip()]`. -/
def commaNames (value : Str) : List Str :=
  (value.splitOn ',').filterMap (fun n =>
    let n' := strip n
    if n'.isEmpty then none else some n')

/-- Model of `ShiftParser.update_shift`: returns the updated dictionary and the
boolean result (`False` when the day is absent or the field unrecognized). -/
def updateShift (s : Shifts) (day : Int) (field : Str) (value : Str) : Shifts × Bool :=
  match lookupShift s day with
  | none => (s, false)
  | some rec =>
    if field = "attendings".data then
      (setShift s day { rec with attendings := commaNames value }, true)
    else if roleFields.contains field then
      (setShift s day (setRoleField rec field (optCell (strip value))), true)
    else (s, false)

/-!
JSON snapshot format of `save_to_json` / `load_from_json`.
-/

/-- JSON values as produced by `json.dump` for this snapshot. -/
inductive Json where
  | null : Json
  | str (s : Str) : Json
  | int (i : Int) : Json
  | arr (xs : List Json) : Json
  | obj (fields : List (Str × Json)) : Json

/-- Encoding of an optional string field (`None` serializes as `null`). -/
def encOpt : Option Str → Json
  | none => Json.null
  | some s => Json.str s

/-- Field dictionary `asdict(shift)` of one `DailyShift`, in declaration
order. -/
def encodeShift (sh : DailyShift) : Json :=
  Json.obj
    [("day".data, Json.int sh.day),
     ("month_name".data, Json.str sh.month_name),
     ("weekday".data, Json.str sh.weekday),
     ("attendings".data, Json.arr (sh.attendings.map Json.str)),
     ("major_shift".data, encOpt sh.major_shift),
     ("minor_shift".data, encOpt sh.minor_shift),
     ("tep_cardiologist".data, encOpt sh.tep_cardiologist),
     ("senior_cardiac_surgeon".data, encOpt sh.senior_cardiac_surgeon),
     ("junior_cardiac_surgeon".data, encOpt sh.junior_cardiac_surgeon),
     ("anesthesiologist_1".data, encOpt sh.anesthesiologist_1),
     ("anesthesiologist_2".data, encOpt sh.anesthesiologist_2),
     ("pediatric_cardiologist".data, encOpt sh.pediatric_cardiologist)]

/-- The `'shifts'` object of `save_to_json`: integer dictionary keys are
rendered as decimal strings by `json.dump`. -/
def encodeShifts (s : Shifts) : Json :=
  Json.obj (s.map (fun p => (intToStr p.1, encodeShift p.2)))

/-- Whole snapshot written by `save_to_json` (the `last_update` timestamp is a
parameter, since `datetime.now()` is outside the model). -/
def saveToJson (ms : MonthShiftSet) (lastUpdate : Str) : Json :=
  Json.obj
    [("month".data, Json.int (Int.ofNat ms.month)),
     ("year".data, Json.int (Int.ofNat ms.year)),
     ("last_update".data, Json.str lastUpdate),
     ("shifts".data, encodeShifts ms.shifts)]

/-- Lookup of a key in a JSON object (`data['month']` etc.). -/
def jsonGet (j : Json) (key : Str) : Option Json :=
  match j with
  | Json.obj fields => (fields.find? (fun p => p.1 = key)).map (fun p => p.2)
  | _ => none

/-- Decoding of an optional string field (`null` or missing key loads as
`None`, mirroring the dataclass keyword defaults). -/
def decOpt : Option Json → Option (Option Str)
  | none => some none
  | some Json.null => some none
  | some (Json.str s) => some (some s)
  | some _ => none

/-- Reconstruction of a JSON string array as the attendings list. -/
def decodeStrList : List Json → Option (List Str)
  | [] => some []
  | Json.str s :: t => (decodeStrList t).map (fun l => s :: l)
  | _ => none

/-- Reconstruction `DailyShift(**shift_data)` from the field dictionary. -/
def decodeShift (j : Json) : Option DailyShift :=
  match jsonGet j ("day".data), jsonGet j ("month_name".data),
      jsonGet j ("weekday".data), jsonGet j ("attendings".data) with
  | some (Json.int day), some (Json.str mn), some (Json.str wd), some (Json.arr att) =>
    match decodeStrList att,
        decOpt (jsonGet j ("major_shift".data)), decOpt (jsonGet j ("minor_shift".data)),
        decOpt (jsonGet j ("tep_cardiologist".data)),
        decOpt (jsonGet j ("senior_cardiac_surgeon".data)),
        decOpt (jsonGet j ("junior_cardiac_surgeon".data)),
        decOpt (jsonGet j ("anesthesiologist_1".data)),
        decOpt (jsonGet j ("anesthesiologist_2".data)),
        decOpt (jsonGet j ("pediatric_cardiologist".data)) with
    | some atts, some mj, some mi, some te, some se, some ju, some a1, some a2, some pe =>
      some { day := day, month_name := mn, weekday := wd, attendings := atts,
             major_shift := mj, minor_shift := mi, tep_cardiologist := te,
             senior_cardiac_surgeon := se, junior_cardiac_surgeon := ju,
             anesthesiologist_1 := a1, anesthesiologist_2 := a2,
             pediatric_cardiologist := pe }
    | _, _, _, _, _, _, _, _, _ => none
  | _, _, _, _ => none

/-- Reconstruction loop of `load_from_json` over the `'shifts'` object:
`parser.shifts[int(day_str)] = DailyShift(**shift_data)` entry by entry; any
undecodable entry aborts the load (the Python `except` path). -/
def loadShiftsList : List (Str × Json) → Shifts → Option Shifts
  | [], acc => some acc
  | (k, v) :: rest, acc =>
    match pyInt k, decodeShift v with
    | some d, some sh => loadShiftsList rest (setShift acc d sh)
    | _, _ => none

/-- Model of `ShiftParser.load_from_json` on an in-memory snapshot value. -/
def loadFromJson (j : Json) : Option MonthShiftSet :=
  match jsonGet j ("month".data), jsonGet j ("year".data), jsonGet j ("shifts".data) with
  | some (Json.int (Int.ofNat m)), some (Json.int (Int.ofNat y)), some (Json.obj entries) =>
    (loadShiftsList entries []).map (fun s => { month := m, year := y, shifts := s })
  | _, _, _ => none

/-!
General lemmas about the dictionary primitives.
-/

theorem lookup_set (s : Shifts) (d : Int) (v : DailyShift) (e : Int) :
    lookupShift (setShift s d v) e = if e = d then some v else lookupShift s e := by
  induction s with
  | nil =>
    by_cases h : e = d
    · simp [setShift, lookupShift, h]
    · simp [setShift, lookupShift, h, Ne.symm h]
  | cons p rest ih =>
    by_cases hpd : p.1 = d
    · by_cases hed : e = d
      · subst hed
        simp [setShift, lookupShift, hpd]
      · have hpe : p.1 ≠ e := fun hh => hed (hh.symm.trans hpd)
        simp [setShift, lookupShift, hpd, hed, Ne.symm hed, hpe]
    · by_cases hed : e = d
      · subst hed
        simp [setShift, lookupShift, hpd, ih]
      · by_cases hpe : p.1 = e
        · simp [setShift, lookupShift, hpd, hed, hpe, ih]
        · simp [setShift, lookupShift, hpd, hed, hpe, ih]

theorem lookupShift_append (l1 l2 : Shifts) (d : Int) :
    lookupShift (l1 ++ l2) d = (lookupShift l1 d).or (lookupShift l2 d) := by
  induction l1 with
  | nil => simp [lookupShift]
  | cons p rest ih =>
    by_cases h : p.1 = d <;> simp [lookupShift, h, ih]

theorem setShift_append_of_none (s : Shifts) (d : Int) (v : DailyShift)
    (h : lookupShift s d = none) : setShift s d v = s ++ [(d, v)] := by
  induction s with
  | nil => simp [setShift]
  | cons p rest ih =>
    by_cases hpd : p.1 = d
    · simp [lookupShift, hpd] at h
    · simp [lookupShift, hpd] at h
      simp [setShift, hpd, ih h]

/-!
General lemmas about the string primitives.
-/

theorem dropWhile_eq_self_of (p : Char → Bool) (l : Str) (h : ∀ c ∈ l, p c = false) :
    l.dropWhile p = l := by
  cases l with
  | nil => rfl
  | cons c t => simp [List.dropWhile_cons, h c (List.mem_cons_self c t)]

theorem strip_of_no_ws (l : Str) (h : ∀ c ∈ l, isWs c = false) : strip l = l := by
  unfold strip
  rw [dropWhile_eq_self_of _ _ h, dropWhile_eq_self_of, List.reverse_reverse]
  intro c hc
  exact h c (List.mem_reverse.mp hc)

theorem strip_eq_nil_iff (l : Str) : strip l = [] ↔ ∀ c ∈ l, isWs c = true := by
  unfold strip
  rw [List.reverse_eq_nil_iff, List.dropWhile_eq_nil_iff]
  constructor
  · intro h c hc
    rcases List.mem_append.mp ((@List.takeWhile_append_dropWhile _ isWs l) ▸ hc) with
        h1 | h2
    · exact List.mem_takeWhile_imp h1
    · exact h c (List.mem_reverse.mpr h2)
  · intro h c hc
    exact h c ((List.dropWhile_sublist isWs).mem (List.mem_reverse.mp hc))

theorem strip_cons_ws (c : Char) (l : Str) (h : isWs c = true) : strip (c :: l) = strip l := by
  simp [strip, List.dropWhile_cons, h]

theorem containsSub_cons (a : Str) (c : Char) (l : Str) (h : containsSub a l = true) :
    containsSub a (c :: l) = true := by
  unfold containsSub
  simp [h]

theorem containsSub_append_left (a pre l : Str) (h : containsSub a l = true) :
    containsSub a (pre ++ l) = true := by
  induction pre with
  | nil => simpa using h
  | cons c t ih => exact containsSub_cons a c (t ++ l) ih

theorem containsSub_ne_nil (a l : Str) (ha : a ≠ []) (h : containsSub a l = true) :
    l ≠ [] := by
  intro hl
  subst hl
  simp [containsSub, List.isEmpty_iff] at h
  exact ha h

/-!
Correctness of the decimal rendering/parsing pair (`str(i)` and `int(s)`).
-/

theorem mem_natDigitsAux_lt (fuel n d : Nat) (h : d ∈ natDigitsAux fuel n) : d < 10 := by
  induction fuel generalizing n with
  | zero => simp [natDigitsAux] at h
  | succ fuel ih =>
    by_cases hn : n < 10
    · simp [natDigitsAux, hn] at h
      omega
    · simp [natDigitsAux, hn] at h
      rcases h with h | h
      · exact ih _ h
      · omega

theorem natDigitsAux_ne_nil (fuel n : Nat) (h : n < fuel) : natDigitsAux fuel n ≠ [] := by
  cases fuel with
  | zero => omega
  | succ fuel =>
    by_cases hn : n < 10 <;> simp [natDigitsAux, hn]

theorem digitsVal_append (xs : List Nat) (d : Nat) :
    digitsVal (xs ++ [d]) = 10 * digitsVal xs + d := by
  unfold digitsVal
  rw [List.foldl_append]
  simp [Nat.mul_comm]

theorem digitsVal_natDigitsAux (fuel n : Nat) (h : n < fuel) :
    digitsVal (natDigitsAux fuel n) = n := by
  induction fuel generalizing n with
  | zero => omega
  | succ fuel ih =>
    by_cases hn : n < 10
    · simp [natDigitsAux, hn, digitsVal]
    · have hdiv : n / 10 < fuel := by
        have h1 : n / 10 < n := Nat.div_lt_self (by omega) (by omega)
        omega
      simp only [natDigitsAux, hn, if_false]
      rw [digitsVal_append, ih _ hdiv]
      omega

theorem charDigit_digitChar (d : Nat) (h : d < 10) : charDigit (digitChar d) = some d := by
  interval_cases d <;> rfl

theorem digitChar_not_sign (d : Nat) : digitChar d ≠ '+' ∧ digitChar d ≠ '-' := by
  unfold digitChar
  split_ifs <;> exact ⟨by decide, by decide⟩

theorem digitChar_not_ws (d : Nat) : isWs (digitChar d) = false := by
  unfold digitChar
  split_ifs <;> decide

theorem mapM_charDigit_map (ds : List Nat) (h : ∀ d ∈ ds, d < 10) :
    (ds.map digitChar).mapM charDigit = some ds := by
  induction ds with
  | nil => rfl
  | cons d t ih =>
    have hd : d < 10 := h d (List.mem_cons_self d t)
    have ht : ∀ x ∈ t, x < 10 := fun x hx => h x (List.mem_cons_of_mem d hx)
    simp only [List.map_cons, List.mapM_cons, charDigit_digitChar d hd, ih ht]
    rfl

theorem parseDigits_natDigits (n : Nat) :
    parseDigits ((natDigits n).map digitChar) = some n := by
  unfold parseDigits natDigits
  rw [mapM_charDigit_map _ (fun d hd => mem_natDigitsAux_lt _ _ _ hd)]
  have hne := natDigitsAux_ne_nil (n + 1) n (by omega)
  simp only [List.isEmpty_iff, hne, if_false]
  rw [digitsVal_natDigitsAux _ _ (by omega)]

theorem strip_digits_map (ds : List Nat) : strip (ds.map digitChar) = ds.map digitChar := by
  apply strip_of_no_ws
  intro c hc
  rcases List.mem_map.mp hc with ⟨d, _, rfl⟩
  exact digitChar_not_ws d

theorem pyInt_intToStr (i : Int) : pyInt (intToStr i) = some i := by
  by_cases hneg : i < 0
  · have habs : (0 : Int) ≤ i.natAbs := Int.ofNat_nonneg _
    simp only [intToStr, hneg, if_true]
    have hminus : isWs '-' = false := by decide
    unfold pyInt
    have hstrip : strip ('-' :: (natDigits i.natAbs).map digitChar)
        = '-' :: (natDigits i.natAbs).map digitChar := by
      apply strip_of_no_ws
      intro c hc
      rcases List.mem_cons.mp hc with rfl | hc2
      · exact hminus
      · rcases List.mem_map.mp hc2 with ⟨d, _, rfl⟩
        exact digitChar_not_ws d
    rw [hstrip]
    show (parseDigits ((natDigits i.natAbs).map digitChar)).map (fun n => -(n : Int)) = some i
    rw [parseDigits_natDigits]
    show some (-(i.natAbs : Int)) = some i
    congr 1
    omega
  · simp only [intToStr, hneg, if_false]
    unfold pyInt
    rw [strip_digits_map]
    have hne : natDigits i.natAbs ≠ [] := natDigitsAux_ne_nil _ _ (by omega)
    rcases hd : natDigits i.natAbs with _ | ⟨d, t⟩
    · exact absurd hd hne
    · have hd10 : d < 10 := mem_natDigitsAux_lt _ _ _ (by rw [show natDigitsAux (i.natAbs + 1) i.natAbs = natDigits i.natAbs from rfl, hd]; exact List.mem_cons_self d t)
      simp only [List.map_cons]
      rw [if_neg, if_neg]
      · rw [show (digitChar d :: t.map digitChar) = (d :: t).map digitChar from rfl, ← hd,
          parseDigits_natDigits]
        show some (Int.ofNat i.natAbs) = some i
        rw [Int.ofNat_eq_natCast]
        congr 1
        omega
      · exact (digitChar_not_sign d).2
      · exact (digitChar_not_sign d).1

/-!
Lemmas about the cell splitters.
-/

theorem splitGN_ne_nil (l : Str) : splitGN l ≠ [] := by
  induction l using splitGN.induct with
  | case1 rest ih => simp [splitGN]
  | case2 c rest hne ih =>
    simp only [splitGN]
    rcases h : splitGN rest with _ | ⟨r, rs⟩
    · exact absurd h ih
    · simp
  | case3 => simp [splitGN]

theorem splitGN_no_token (l : Str) (h : containsSub ("Γ.Ν.".data) l = false) :
    splitGN l = [l] := by
  induction l using splitGN.induct with
  | case1 rest ih =>
    exfalso
    have hcontra : containsSub ("Γ.Ν.".data) ('Γ' :: '.' :: 'Ν' :: '.' :: rest) = true := by
      unfold containsSub
      simp [startsWith]
    rw [hcontra] at h
    exact Bool.noConfusion h
  | case2 c rest hne ih =>
    have hrest : containsSub ("Γ.Ν.".data) rest = false := by
      unfold containsSub at h
      exact (Bool.or_eq_false_iff.mp h).2
    simp only [splitGN, ih hrest]
    rfl
  | case3 => rfl

theorem mem_splitGN_chars (l : Str) :
    ∀ x ∈ splitGN l, ∀ c ∈ x, c ∈ l := by
  induction l using splitGN.induct with
  | case1 rest ih =>
    intro x hx c hc
    simp only [splitGN, List.mem_cons] at hx
    rcases hx with rfl | hx
    · cases hc
    · have := ih x hx c hc
      simp [List.mem_cons, this]
  | case2 c0 rest hne ih =>
    intro x hx c hc
    simp only [splitGN] at hx
    rcases h : splitGN rest with _ | ⟨r, rs⟩
    · exact absurd h (splitGN_ne_nil rest)
    · rw [h] at hx
      simp only [List.modifyHead] at hx
      have hr : r ∈ splitGN rest := by
        rw [h]
        exact List.mem_cons_self r rs
      rcases List.mem_cons.mp hx with rfl | hx2
      · rcases List.mem_cons.mp hc with rfl | hc2
        · exact List.mem_cons_self _ _
        · exact List.mem_cons_of_mem _ (ih r hr c hc2)
      · have hx3 : x ∈ splitGN rest := by
          rw [h]
          exact List.mem_cons_of_mem r hx2
        exact List.mem_cons_of_mem _ (ih x hx3 c hc)
  | case3 =>
    intro x hx c hc
    simp only [splitGN, List.mem_singleton] at hx
    subst hx
    cases hc

theorem mem_splitOnP_chars (p : Char → Bool) (l : Str) :
    ∀ x ∈ l.splitOnP p, ∀ c ∈ x, c ∈ l := by
  induction l with
  | nil =>
    intro x hx c hc
    rw [List.splitOnP_nil] at hx
    simp at hx
    subst hx
    cases hc
  | cons c0 t ih =>
    intro x hx c hc
    rw [List.splitOnP_cons] at hx
    by_cases h0 : p c0
    · simp only [h0, if_true, List.mem_cons] at hx
      rcases hx with rfl | hx
      · cases hc
      · exact List.mem_cons_of_mem _ (ih x hx c hc)
    · simp only [h0, if_false, Bool.false_eq_true] at hx
      rcases hsp : t.splitOnP p with _ | ⟨r, rs⟩
      · exact absurd hsp (List.splitOnP_ne_nil _ t)
      · rw [hsp] at hx
        simp only [List.modifyHead] at hx
        have hr : r ∈ t.splitOnP p := by
          rw [hsp]
          exact List.mem_cons_self r rs
        rcases List.mem_cons.mp hx with rfl | hx2
        · rcases List.mem_cons.mp hc with rfl | hc2
          · exact List.mem_cons_self _ _
          · exact List.mem_cons_of_mem _ (ih r hr c hc2)
        · have hx3 : x ∈ t.splitOnP p := by
            rw [hsp]
            exact List.mem_cons_of_mem r hx2
          exact List.mem_cons_of_mem _ (ih x hx3 c hc)

theorem mem_splitOn_chars (sep : Char) (l x : Str) (hx : x ∈ l.splitOn sep)
    (c : Char) (hc : c ∈ x) : c ∈ l := by
  rw [List.splitOn] at hx
  exact mem_splitOnP_chars _ l x hx c hc

theorem filterMap_eq_map_of {α β : Type} (g : α → Option β) (f : α → β) (l : List α)
    (h : ∀ x ∈ l, g x = some (f x)) : l.filterMap g = l.map f := by
  induction l with
  | nil => rfl
  | cons a t ih =>
    rw [List.filterMap_cons, h a (List.mem_cons_self a t), List.map_cons,
      ih (fun x hx => h x (List.mem_cons_of_mem a hx))]

theorem flatMap_eq_self_of {α : Type} (f : α → List α) (l : List α)
    (h : ∀ x ∈ l, f x = [x]) : l.flatMap f = l := by
  induction l with
  | nil => rfl
  | cons a t ih =>
    rw [List.flatMap_cons, h a (List.mem_cons_self a t),
      ih (fun x hx => h x (List.mem_cons_of_mem a hx))]
    rfl

theorem mem_intercalate_chars (sep : Char) (ls : List Str) (m : Str) (hm : m ∈ ls)
    (c : Char) (hc : c ∈ m) : c ∈ List.intercalate [sep] ls := by
  induction ls with
  | nil => cases hm
  | cons a t ih =>
    cases t with
    | nil =>
      rcases List.mem_singleton.mp hm with rfl
      simpa [List.intercalate] using hc
    | cons b t2 =>
      have hstep : List.intercalate [sep] (a :: b :: t2)
          = a ++ sep :: List.intercalate [sep] (b :: t2) := by
        simp [List.intercalate, List.intersperse_cons_cons, List.flatten]
      rw [hstep, List.mem_append]
      rcases List.mem_cons.mp hm with rfl | hm2
      · exact Or.inl hc
      · exact Or.inr (List.mem_cons_of_mem _ (ih hm2))

/-!
Lemmas about `updateShift`.
-/

theorem commaNames_all_ws (w : Str) (h : ∀ c ∈ w, isWs c = true) : commaNames w = [] := by
  unfold commaNames
  rw [List.filterMap_eq_nil_iff]
  intro x hx
  have hws : ∀ c ∈ x, isWs c = true := fun c hc =>
    h c (mem_splitOn_chars ',' w x hx c hc)
  have hnil : strip x = [] := (strip_eq_nil_iff x).mpr hws
  simp [hnil]

/-- C5: for a day present in the shift set, `update(day, "attendings", " A, B ,C")`
stores the comma-split trimmed list `[A, B, C]`; an attendings value that is all
whitespace stores the empty list; and any recognized non-attendings field given
a value that is empty after trimming is cleared to unset (`None`), not stored
as an empty string. -/
theorem claim5_update_semantics (s : Shifts) (d : Int) (rec : DailyShift) (f v w : Str)
    (hd : lookupShift s d = some rec) (hf : f ∈ roleFields) (hv : strip v = [])
    (hw : ∀ c ∈ w, isWs c = true) :
    lookupShift (updateShift s d ("attendings".data) (" A, B ,C".data)).1 d
      = some { rec with attendings := [("A".data), ("B".data), ("C".data)] }
    ∧ lookupShift (updateShift s d ("attendings".data) w).1 d
      = some { rec with attendings := [] }
    ∧ lookupShift (updateShift s d f v).1 d = some (setRoleField rec f none)
    ∧ getRoleField (setRoleField rec f none) f = none := by
  have hattend : commaNames (" A, B ,C".data) = [("A".data), ("B".data), ("C".data)] := by
    decide
  refine ⟨?_, ?_, ?_⟩
  · simp only [updateShift, hd, if_true]
    simp only [lookup_set, eq_self_iff_true, if_true]
    rw [hattend]
  · simp only [updateShift, hd, if_true]
    simp only [lookup_set, eq_self_iff_true, if_true]
    rw [commaNames_all_ws w hw]
  · simp only [roleFields, List.mem_cons, List.not_mem_nil, or_false] at hf
    rcases hf with rfl | rfl | rfl | rfl | rfl | rfl | rfl | rfl <;>
      exact ⟨by
        simp only [updateShift, hd]
        rw [if_neg (by decide), if_pos (by decide)]
        simp only [lookup_set, eq_self_iff_true, if_true]
        rw [hv]
        rfl, by
        simp [setRoleField, getRoleField]⟩

/-- Witness for C5 at a concrete one-day shift set. -/
def W5rec : DailyShift :=
  { day := 3, month_name := "ΟΚΤΩΒΡΙΟΣ".data, weekday := "Παρασκευή".data,
    attendings := [("Παπαδόπουλος".data)], major_shift := some ("Νικολάου".data) }

theorem claim5_update_semantics_witness :
    lookupShift (updateShift [(3, W5rec)] 3 ("attendings".data) (" A, B ,C".data)).1 3
      = some { W5rec with attendings := [("A".data), ("B".data), ("C".data)] }
    ∧ lookupShift (updateShift [(3, W5rec)] 3 ("attendings".data) ("  ".data)).1 3
      = some { W5rec with attendings := [] }
    ∧ lookupShift (updateShift [(3, W5rec)] 3 ("major_shift".data) ("".data)).1 3
      = some (setRoleField W5rec ("major_shift".data) none)
    ∧ getRoleField (setRoleField W5rec ("major_shift".data) none) ("major_shift".data) = none :=
  claim5_update_semantics [(3, W5rec)] 3 W5rec ("major_shift".data) ("".data) ("  ".data)
    (by rfl) (by decide) (by decide) (by decide)

/-- C9: when no available source label contains the constructed
`"<day> <Greek month name> <year>"` label, `get_schedule_for_date` returns the
empty record list (and, being a total function of the listing, signals no
error). -/
theorem claim9_no_label_empty (files : List FileEntry) (fetch : Str → Option (List PdfTable))
    (d : GDate) (h : ∀ f ∈ files, containsSub (dateLabel d) f.text = false) :
    getScheduleForDate files fetch d = [] := by
  have hnone : files.find? (fun f => containsSub (dateLabel d) f.text) = none :=
    List.find?_eq_none.mpr (fun x hx => by simp [h x hx])
  simp [getScheduleForDate, hnone]

theorem claim9_no_label_empty_witness :
    getScheduleForDate
      [{ text := "ΤΡΙΤΗ 15 ΟΚΤΩΒΡΙΟΥ 2025".data, fdl := "9876".data, ftype := "pdf".data }]
      (fun _ => some []) { year := 2025, month := 10, day := 14 } = [] :=
  claim9_no_label_empty _ _ _ (by decide)

/-!
Surgeon-field invariant of the two parsing passes (C10).
-/

theorem attStep_surgeons (s : Shifts) (row : DocxRow)
    (h : ∀ e r, lookupShift s e = some r →
      r.senior_cardiac_surgeon = none ∧ r.junior_cardiac_surgeon = none) :
    ∀ e r, lookupShift (attStep s row) e = some r →
      r.senior_cardiac_surgeon = none ∧ r.junior_cardiac_surgeon = none := by
  intro e r hl
  cases hp : attRowParse row with
  | none =>
    simp only [attStep, hp] at hl
    exact h e r hl
  | some x =>
    obtain ⟨day, mn, wd, names⟩ := x
    simp only [attStep, hp] at hl
    cases hs : lookupShift s day with
    | none =>
      simp only [hs] at hl
      rw [lookup_set] at hl
      by_cases hed : e = day
      · rw [if_pos hed] at hl
        injection hl with hinj
        subst hinj
        exact ⟨rfl, rfl⟩
      · rw [if_neg hed] at hl
        exact h e r hl
    | some rec0 =>
      simp only [hs] at hl
      rw [lookup_set] at hl
      by_cases hed : e = day
      · rw [if_pos hed] at hl
        injection hl with hinj
        subst hinj
        exact h day rec0 hs
      · rw [if_neg hed] at hl
        exact h e r hl

theorem resStep_surgeons (s : Shifts) (row : DocxRow)
    (h : ∀ e r, lookupShift s e = some r →
      r.senior_cardiac_surgeon = none ∧ r.junior_cardiac_surgeon = none) :
    ∀ e r, lookupShift (resStep s row) e = some r →
      r.senior_cardiac_surgeon = none ∧ r.junior_cardiac_surgeon = none := by
  intro e r hl
  cases hp : resRowParse row with
  | none =>
    simp only [resStep, hp] at hl
    exact h e r hl
  | some x =>
    obtain ⟨day, mn, wd, roles⟩ := x
    simp only [resStep, hp] at hl
    cases hs : lookupShift s day with
    | some rec0 =>
      simp only [hs] at hl
      rw [lookup_set] at hl
      by_cases hed : e = day
      · rw [if_pos hed] at hl
        injection hl with hinj
        subst hinj
        exact h day rec0 hs
      · rw [if_neg hed] at hl
        exact h e r hl
    | none =>
      simp only [hs] at hl
      rw [lookup_set] at hl
      by_cases hed : e = day
      · rw [if_pos hed] at hl
        injection hl with hinj
        subst hinj
        exact ⟨rfl, rfl⟩
      · rw [if_neg hed] at hl
        exact h e r hl

theorem foldl_surgeons (step : Shifts → DocxRow → Shifts)
    (hstep : ∀ s row, (∀ e r, lookupShift s e = some r →
        r.senior_cardiac_surgeon = none ∧ r.junior_cardiac_surgeon = none) →
      ∀ e r, lookupShift (step s row) e = some r →
        r.senior_cardiac_surgeon = none ∧ r.junior_cardiac_surgeon = none)
    (rows : List DocxRow) :
    ∀ s, (∀ e r, lookupShift s e = some r →
        r.senior_cardiac_surgeon = none ∧ r.junior_cardiac_surgeon = none) →
      ∀ e r, lookupShift (rows.foldl step s) e = some r →
        r.senior_cardiac_surgeon = none ∧ r.junior_cardiac_surgeon = none := by
  induction rows with
  | nil => exact fun s hs => hs
  | cons row rest ih =>
    intro s hs
    exact ih (step s row) (hstep s row hs)

/-- C10: after a successful two-pass parse the `senior_cardiac_surgeon` and
`junior_cardiac_surgeon` fields of every record are unset (neither table pass
ever writes them), and `update_shift` can set them afterwards. -/
theorem claim10_surgeons_unset (t1 t2 : List DocxRow) (d : Int) (rec : DailyShift)
    (h : lookupShift (parseResidentTable t2 (parseAttendingTable t1 [])) d = some rec) :
    rec.senior_cardiac_surgeon = none ∧ rec.junior_cardiac_surgeon = none
    ∧ ∀ v : Str, strip v ≠ [] →
        lookupShift (updateShift (parseResidentTable t2 (parseAttendingTable t1 [])) d
            ("senior_cardiac_surgeon".data) v).1 d
          = some { rec with senior_cardiac_surgeon := some (strip v) } := by
  have hbase : ∀ e r, lookupShift ([] : Shifts) e = some r →
      r.senior_cardiac_surgeon = none ∧ r.junior_cardiac_surgeon = none := by
    intro e r hl
    cases hl
  have hatt := foldl_surgeons attStep attStep_surgeons t1 [] hbase
  have hres := foldl_surgeons resStep resStep_surgeons (t2.drop 1)
    (parseAttendingTable t1 []) hatt
  have hmain := hres d rec h
  refine ⟨hmain.1, hmain.2, ?_⟩
  intro v hv
  have hvne : (strip v).isEmpty = false := by
    rcases hsv : strip v with _ | ⟨a, b⟩
    · exact absurd hsv hv
    · rfl
  simp only [updateShift, h]
  rw [if_neg (by decide), if_pos (by decide)]
  simp only [lookup_set, eq_self_iff_true, if_true]
  simp [setRoleField, optCell, hvne]

/-- Witness tables for C10: day 5 appears in both tables. -/
def W10T1 : List DocxRow := [[("5".data), ("ΟΚΤ".data), ("Δευτέρα".data), ("Α\nΒ".data)]]

/-- Witness resident table for C10 (row 0 is the header). -/
def W10T2 : List DocxRow :=
  [[("ΗΜΕΡΑ".data), [], [], [], [], []],
   [("5".data), ("ΟΚΤ".data), ("Δευτέρα".data), ("Μ".data), ("μ".data), ("Τ".data)]]

/-- Record produced for day 5 by the witness tables. -/
def W10rec : DailyShift :=
  { day := 5, month_name := "ΟΚΤ".data, weekday := "Δευτέρα".data,
    attendings := [("Α".data), ("Β".data)], major_shift := some ("Μ".data),
    minor_shift := some ("μ".data), tep_cardiologist := some ("Τ".data) }

theorem claim10_surgeons_unset_witness :
    lookupShift (parseResidentTable W10T2 (parseAttendingTable W10T1 [])) 5 = some W10rec
    ∧ W10rec.senior_cardiac_surgeon = none ∧ W10rec.junior_cardiac_surgeon = none := by
  have h := claim10_surgeons_unset W10T1 W10T2 5 W10rec (by decide)
  exact ⟨by decide, h.1, h.2.1⟩

/-!
Structural-failure characterization of `ShiftParser.parse` (C2).
-/

theorem findMonthYear_isSome (months : List (Str × Nat)) (t : Str) :
    (months.findSome? (fun q =>
        if containsSub q.1 t then (findYear none t).map (fun y => (q.2, y)) else none)).isSome
      = (months.any (fun q => containsSub q.1 t) && (findYear none t).isSome) := by
  induction months with
  | nil => rfl
  | cons q rest ih =>
    by_cases hc : containsSub q.1 t
    · cases hy : findYear none t <;>
        simp [List.findSome?_cons, hc, hy, ih, List.any_cons]
    · simp [List.findSome?_cons, hc, ih, List.any_cons]

theorem paraMonthYear_isSome (p : Str) : (paraMonthYear p).isSome = hasMarker p := by
  simp only [paraMonthYear, hasMarker]
  exact findMonthYear_isSome _ _

theorem extractMonthYear_eq_none_iff (ps : List Str) :
    extractMonthYear ps = none ↔ ∀ p ∈ ps, hasMarker p = false := by
  induction ps with
  | nil => simp [extractMonthYear]
  | cons p rest ih =>
    cases hp : paraMonthYear p with
    | some r =>
      have hmk : hasMarker p = true := by
        rw [← paraMonthYear_isSome, hp]
        rfl
      simp [extractMonthYear, hp, hmk]
    | none =>
      have hmk : hasMarker p = false := by
        rw [← paraMonthYear_isSome, hp]
        rfl
      simp [extractMonthYear, hp, ih, hmk]

/-- C2: the shift-table parse fails exactly when the month/year marker
paragraph is absent (no paragraph whose uppercased text contains a Greek month
name together with a `20xx` year) or the document has fewer than 2 tables;
otherwise it succeeds with a `MonthShiftSet`. -/
theorem claim2_parse_failure_iff (doc : ShiftDoc) :
    shiftParse doc = none ↔
      ((∀ p ∈ doc.paragraphs, hasMarker p = false) ∨ doc.tables.length < 2) := by
  cases hEM : extractMonthYear doc.paragraphs with
  | none =>
    have hall := (extractMonthYear_eq_none_iff _).mp hEM
    simp only [shiftParse, hEM]
    exact ⟨fun _ => Or.inl hall, fun _ => trivial⟩
  | some r =>
    obtain ⟨m, y⟩ := r
    have hmark : ¬ (∀ p ∈ doc.paragraphs, hasMarker p = false) := by
      intro hall
      rw [(extractMonthYear_eq_none_iff _).mpr hall] at hEM
      cases hEM
    cases htab : doc.tables with
    | nil => simp [shiftParse, hEM, htab, hmark]
    | cons t1 rest =>
      cases rest with
      | nil => simp [shiftParse, hEM, htab, hmark]
      | cons t2 rest2 =>
        have hlen : ¬ (doc.tables.length < 2) := by
          rw [htab]
          simp only [List.length_cons]
          omega
        simp [shiftParse, hEM, htab, hmark, hlen]

theorem claim2_parse_failure_iff_witness :
    shiftParse { paragraphs := [("χωρίς μήνα".data)], tables := [[], []] } = none
    ∧ (shiftParse { paragraphs := [("ΟΚΤΩΒΡΙΟΣ 2025".data)], tables := [[], []] }).isSome = true := by
  constructor
  · exact (claim2_parse_failure_iff _).mpr (Or.inl (by decide))
  · have h := (claim2_parse_failure_iff
      { paragraphs := [("ΟΚΤΩΒΡΙΟΣ 2025".data)], tables := [[], []] })
    rcases hs : shiftParse { paragraphs := [("ΟΚΤΩΒΡΙΟΣ 2025".data)], tables := [[], []] } with _ | r
    · exact absurd ((h.mp hs).resolve_right (by decide)) (by decide)
    · rfl

/-!
Snapshot round-trip (C4).
-/

theorem decOpt_encOpt (x : Option Str) : decOpt (some (encOpt x)) = some x := by
  cases x <;> rfl

theorem decodeStrList_map (l : List Str) : decodeStrList (l.map Json.str) = some l := by
  induction l with
  | nil => rfl
  | cons a t ih => simp [decodeStrList, ih]

theorem decodeShift_encodeShift (sh : DailyShift) : decodeShift (encodeShift sh) = some sh := by
  have hatt : decodeStrList (sh.attendings.map Json.str) = some sh.attendings :=
    decodeStrList_map sh.attendings
  have h1 : jsonGet (encodeShift sh) ("day".data) = some (Json.int sh.day) := rfl
  have h2 : jsonGet (encodeShift sh) ("month_name".data) = some (Json.str sh.month_name) := rfl
  have h3 : jsonGet (encodeShift sh) ("weekday".data) = some (Json.str sh.weekday) := rfl
  have h4 : jsonGet (encodeShift sh) ("attendings".data)
      = some (Json.arr (sh.attendings.map Json.str)) := rfl
  have h5 : jsonGet (encodeShift sh) ("major_shift".data) = some (encOpt sh.major_shift) := rfl
  have h6 : jsonGet (encodeShift sh) ("minor_shift".data) = some (encOpt sh.minor_shift) := rfl
  have h7 : jsonGet (encodeShift sh) ("tep_cardiologist".data)
      = some (encOpt sh.tep_cardiologist) := rfl
  have h8 : jsonGet (encodeShift sh) ("senior_cardiac_surgeon".data)
      = some (encOpt sh.senior_cardiac_surgeon) := rfl
  have h9 : jsonGet (encodeShift sh) ("junior_cardiac_surgeon".data)
      = some (encOpt sh.junior_cardiac_surgeon) := rfl
  have h10 : jsonGet (encodeShift sh) ("anesthesiologist_1".data)
      = some (encOpt sh.anesthesiologist_1) := rfl
  have h11 : jsonGet (encodeShift sh) ("anesthesiologist_2".data)
      = some (encOpt sh.anesthesiologist_2) := rfl
  have h12 : jsonGet (encodeShift sh) ("pediatric_cardiologist".data)
      = some (encOpt sh.pediatric_cardiologist) := rfl
  simp only [decodeShift, h1, h2, h3, h4, h5, h6, h7, h8, h9, h10, h11, h12, hatt,
    decOpt_encOpt]

theorem loadShiftsList_enc (l : Shifts) (acc : Shifts) :
    loadShiftsList (l.map (fun p => (intToStr p.1, encodeShift p.2))) acc
      = some (l.foldl (fun a p => setShift a p.1 p.2) acc) := by
  induction l generalizing acc with
  | nil => rfl
  | cons p t ih =>
    simp only [List.map_cons, loadShiftsList, pyInt_intToStr, decodeShift_encodeShift,
      List.foldl_cons]
    exact ih _

theorem foldl_set_append (l : Shifts) :
    ∀ acc : Shifts, (∀ p ∈ l, lookupShift acc p.1 = none) →
      l.Pairwise (fun a b => a.1 ≠ b.1) →
      l.foldl (fun a p => setShift a p.1 p.2) acc = acc ++ l := by
  induction l with
  | nil => simp
  | cons p t ih =>
    intro acc hdisj hpair
    simp only [List.foldl_cons]
    rw [setShift_append_of_none acc p.1 p.2 (hdisj p (List.mem_cons_self p t))]
    rw [ih (acc ++ [(p.1, p.2)]) ?hd (List.pairwise_cons.mp hpair).2]
    · simp
    case hd =>
      intro q hq
      rw [lookupShift_append, hdisj q (List.mem_cons_of_mem p hq)]
      have hne : p.1 ≠ q.1 := (List.pairwise_cons.mp hpair).1 q hq
      simp [lookupShift, hne]

/-- C4: serializing a `MonthShiftSet` to the JSON snapshot format and loading
the snapshot back reproduces the identical day-to-record mapping (unset
optional fields serialize as `null` and load back as unset), together with the
month and year. -/
theorem claim4_snapshot_roundtrip (ms : MonthShiftSet) (ts : Str)
    (hkeys : ms.shifts.Pairwise (fun a b => a.1 ≠ b.1)) :
    loadFromJson (saveToJson ms ts) = some ms := by
  have h1 : jsonGet (saveToJson ms ts) ("month".data) = some (Json.int (Int.ofNat ms.month)) :=
    rfl
  have h2 : jsonGet (saveToJson ms ts) ("year".data) = some (Json.int (Int.ofNat ms.year)) :=
    rfl
  have h3 : jsonGet (saveToJson ms ts) ("shifts".data)
      = some (Json.obj (ms.shifts.map (fun p => (intToStr p.1, encodeShift p.2)))) := rfl
  simp only [loadFromJson, h1, h2, h3, loadShiftsList_enc]
  rw [foldl_set_append ms.shifts [] (fun p _ => rfl) hkeys]
  simp

/-- Concrete month set for the C4 witness: one day with several unset fields,
one fully populated. -/
def W4ms : MonthShiftSet :=
  { month := 10, year := 2025,
    shifts :=
      [(1, { day := 1, month_name := "ΟΚΤΩΒΡΙΟΣ".data, weekday := "Τετάρτη".data,
             attendings := [] }),
       (14, { day := 14, month_name := "ΟΚΤΩΒΡΙΟΣ".data, weekday := "Τρίτη".data,
              attendings := [("Α".data), ("Β".data)], major_shift := some ("Μ".data),
              tep_cardiologist := some ("Τ".data),
              pediatric_cardiologist := some ("Π".data) })] }

theorem claim4_snapshot_roundtrip_witness :
    loadFromJson (saveToJson W4ms ("2025-10-14T08:00:00".data)) = some W4ms :=
  claim4_snapshot_roundtrip W4ms ("2025-10-14T08:00:00".data) (by decide)

/-!
Characterization of the two-pass merge (C3).
-/

/-- Days contributed by the attending table: rows with at least 4 cells and an
integer day cell. -/
def attDays (t : List DocxRow) : List Int :=
  t.filterMap (fun row => (attRowParse row).map (fun x => x.1))

/-- Days contributed by the resident table: non-header rows with at least 6
cells and an integer day cell. -/
def resDays (t : List DocxRow) : List Int :=
  (t.drop 1).filterMap (fun row => (resRowParse row).map (fun x => x.1))

/-- Information that one resident row holds about day `d`, folded onto the
information accumulated so far (month/weekday of the first matching row,
roles of the last). -/
def resInfoStep (d : Int) (acc : Option (Str × Str × ResRoles)) (row : DocxRow) :
    Option (Str × Str × ResRoles) :=
  match resRowParse row with
  | some (day, mn, wd, roles) =>
    if day = d then
      match acc with
      | none => some (mn, wd, roles)
      | some (mn0, wd0, _) => some (mn0, wd0, roles)
    else acc
  | none => acc

/-- Combined information that a list of resident rows holds about day `d`. -/
def resInfo (rows : List DocxRow) (d : Int) : Option (Str × Str × ResRoles) :=
  rows.foldl (resInfoStep d) none

/-- Merge of two accumulated pieces of resident-row information (first rows,
then later rows). -/
def resAccMerge (a b : Option (Str × Str × ResRoles)) : Option (Str × Str × ResRoles) :=
  match b with
  | none => a
  | some (mn1, wd1, r1) =>
    match a with
    | none => some (mn1, wd1, r1)
    | some (mn0, wd0, _) => some (mn0, wd0, r1)

/-- Effect of resident-row information on the record stored for day `d`. -/
def resCombine (d : Int) (o : Option DailyShift) (i : Option (Str × Str × ResRoles)) :
    Option DailyShift :=
  match i with
  | none => o
  | some (mn, wd, roles) =>
    match o with
    | some rec => some (applyRoles rec roles)
    | none =>
      some (applyRoles { day := d, month_name := mn, weekday := wd, attendings := [] } roles)

theorem resAccMerge_none_left (b : Option (Str × Str × ResRoles)) :
    resAccMerge none b = b := by
  cases b <;> rfl

theorem resInfo_acc (d : Int) (rows : List DocxRow) :
    ∀ acc, rows.foldl (resInfoStep d) acc = resAccMerge acc (resInfo rows d) := by
  induction rows with
  | nil => intro acc; rfl
  | cons row rest ih =>
    intro acc
    show rest.foldl (resInfoStep d) (resInfoStep d acc row)
      = resAccMerge acc (resInfo (row :: rest) d)
    rw [ih (resInfoStep d acc row)]
    have hrhs : resInfo (row :: rest) d
        = resAccMerge (resInfoStep d none row) (resInfo rest d) := by
      show rest.foldl (resInfoStep d) (resInfoStep d none row) = _
      exact ih (resInfoStep d none row)
    rw [hrhs]
    generalize resInfo rest d = X
    cases hp : resRowParse row with
    | none =>
      simp only [resInfoStep, hp]
      rw [resAccMerge_none_left]
    | some q =>
      obtain ⟨day, mn, wd, roles⟩ := q
      by_cases hd : day = d
      · simp only [resInfoStep, hp, if_pos hd]
        cases acc with
        | none => cases X <;> rfl
        | some a0 =>
          obtain ⟨mn0, wd0, r0⟩ := a0
          cases X <;> rfl
      · simp only [resInfoStep, hp, if_neg hd]
        rw [resAccMerge_none_left]

theorem resInfo_cons (row : DocxRow) (rows : List DocxRow) (d : Int) :
    resInfo (row :: rows) d = resAccMerge (resInfoStep d none row) (resInfo rows d) := by
  show rows.foldl (resInfoStep d) (resInfoStep d none row) = _
  exact resInfo_acc d rows _

theorem lookup_resStep (s : Shifts) (row : DocxRow) (d : Int) :
    lookupShift (resStep s row) d = resCombine d (lookupShift s d) (resInfoStep d none row) := by
  cases hp : resRowParse row with
  | none => simp [resStep, hp, resInfoStep, resCombine]
  | some q =>
    obtain ⟨day, mn, wd, roles⟩ := q
    by_cases hd : day = d
    · subst hd
      simp only [resStep, hp, resInfoStep, if_pos rfl]
      cases hs : lookupShift s day with
      | some rec0 => simp [hs, lookup_set, resCombine]
      | none => simp [hs, lookup_set, resCombine]
    · have hdd : ¬ (d = day) := fun h => hd h.symm
      simp only [resStep, hp, resInfoStep, if_neg hd]
      cases hs : lookupShift s day with
      | some rec0 =>
        rw [lookup_set, if_neg hdd]
        rfl
      | none =>
        rw [lookup_set, if_neg hdd]
        rfl

theorem resCombine_assoc (d : Int) (o : Option DailyShift)
    (a b : Option (Str × Str × ResRoles)) :
    resCombine d (resCombine d o a) b = resCombine d o (resAccMerge a b) := by
  cases b with
  | none => rfl
  | some q =>
    obtain ⟨mn1, wd1, r1⟩ := q
    cases a with
    | none => rfl
    | some p =>
      obtain ⟨mn0, wd0, r0⟩ := p
      cases o <;> rfl

theorem lookup_foldl_resStep (rows : List DocxRow) :
    ∀ s d, lookupShift (rows.foldl resStep s) d
      = resCombine d (lookupShift s d) (resInfo rows d) := by
  induction rows with
  | nil => intro s d; rfl
  | cons row rest ih =>
    intro s d
    show lookupShift (rest.foldl resStep (resStep s row)) d = _
    rw [ih (resStep s row) d, lookup_resStep, resInfo_cons, ← resCombine_assoc]

theorem resCombine_isSome (d : Int) (o : Option DailyShift)
    (i : Option (Str × Str × ResRoles)) :
    (resCombine d o i).isSome = (o.isSome || i.isSome) := by
  cases i with
  | none => simp [resCombine]
  | some q =>
    obtain ⟨mn, wd, roles⟩ := q
    cases o <;> simp [resCombine]

theorem resInfo_isSome_iff (rows : List DocxRow) (d : Int) :
    (resInfo rows d).isSome = true ↔
      d ∈ rows.filterMap (fun row => (resRowParse row).map (fun x => x.1)) := by
  induction rows with
  | nil => simp [resInfo]
  | cons row rest ih =>
    rw [resInfo_cons]
    cases hp : resRowParse row with
    | none =>
      simp only [resInfoStep, hp, resAccMerge_none_left, List.filterMap_cons, Option.map_none']
      exact ih
    | some q =>
      obtain ⟨day, mn, wd, roles⟩ := q
      by_cases hd : day = d
      · have ht : (resAccMerge (some (mn, wd, roles)) (resInfo rest d)).isSome = true := by
          cases hX : resInfo rest d with
          | none => rfl
          | some x =>
            obtain ⟨a, b, c⟩ := x
            rfl
        simp only [resInfoStep, hp, if_pos hd, List.filterMap_cons, Option.map_some',
          List.mem_cons]
        rw [ht]
        exact iff_of_true rfl (Or.inl hd.symm)
      · have hdd : ¬ (d = day) := fun h => hd h.symm
        simp only [resInfoStep, hp, if_neg hd, resAccMerge_none_left, List.filterMap_cons,
          Option.map_some', List.mem_cons]
        rw [ih]
        exact (or_iff_right hdd).symm

theorem lookup_foldl_attStep_isSome (rows : List DocxRow) :
    ∀ s d, (lookupShift (rows.foldl attStep s) d).isSome = true ↔
      ((lookupShift s d).isSome = true
        ∨ d ∈ rows.filterMap (fun row => (attRowParse row).map (fun x => x.1))) := by
  induction rows with
  | nil => intro s d; simp
  | cons row rest ih =>
    intro s d
    show (lookupShift (rest.foldl attStep (attStep s row)) d).isSome = true ↔ _
    rw [ih]
    cases hp : attRowParse row with
    | none =>
      simp only [attStep, hp, List.filterMap_cons, Option.map_none']
    | some q =>
      obtain ⟨day, mn, wd, names⟩ := q
      have hiso : (lookupShift (attStep s row) d).isSome = true ↔
          ((lookupShift s d).isSome = true ∨ d = day) := by
        simp only [attStep, hp]
        cases hs : lookupShift s day with
        | none =>
          rw [lookup_set]
          by_cases hd : d = day
          · simp [hd, hs]
          · simp [hd]
        | some rec0 =>
          rw [lookup_set]
          by_cases hd : d = day
          · subst hd
            simp [hs]
          · simp [hd]
      rw [hiso]
      simp only [List.filterMap_cons, hp, Option.map_some', List.mem_cons]
      tauto

/-- C3: after the two parsing passes the shift dictionary contains exactly the
union of the days seen in either table; for a day in both tables the merged
record keeps the attending-table fields (attendings, month name, weekday) and
the resident-table role fields unchanged from what each table alone would
store; a day only in the resident table yields a record with an empty
attendings list rather than a missing record. -/
theorem claim3_merge_union (t1 t2 : List DocxRow) (d : Int) :
    ((lookupShift (parseResidentTable t2 (parseAttendingTable t1 [])) d).isSome = true
        ↔ (d ∈ attDays t1 ∨ d ∈ resDays t2))
    ∧ (∀ rec, lookupShift (parseResidentTable t2 (parseAttendingTable t1 [])) d = some rec →
        (∀ recA, lookupShift (parseAttendingTable t1 []) d = some recA →
            rec.attendings = recA.attendings ∧ rec.month_name = recA.month_name
              ∧ rec.weekday = recA.weekday)
        ∧ (∀ recR, lookupShift (parseResidentTable t2 []) d = some recR →
            rec.major_shift = recR.major_shift ∧ rec.minor_shift = recR.minor_shift
              ∧ rec.tep_cardiologist = recR.tep_cardiologist
              ∧ rec.anesthesiologist_1 = recR.anesthesiologist_1
              ∧ rec.anesthesiologist_2 = recR.anesthesiologist_2
              ∧ rec.pediatric_cardiologist = recR.pediatric_cardiologist)
        ∧ (d ∈ resDays t2 → d ∉ attDays t1 → rec.attendings = [])) := by
  have hA : lookupShift (parseResidentTable t2 (parseAttendingTable t1 [])) d
      = resCombine d (lookupShift (parseAttendingTable t1 []) d) (resInfo (t2.drop 1) d) :=
    lookup_foldl_resStep (t2.drop 1) (parseAttendingTable t1 []) d
  have hSolo : lookupShift (parseResidentTable t2 []) d
      = resCombine d none (resInfo (t2.drop 1) d) :=
    lookup_foldl_resStep (t2.drop 1) [] d
  have hAttMem : (lookupShift (parseAttendingTable t1 []) d).isSome = true ↔ d ∈ attDays t1 := by
    have h := lookup_foldl_attStep_isSome t1 [] d
    simpa [lookupShift, attDays, parseAttendingTable] using h
  have hResMem : (resInfo (t2.drop 1) d).isSome = true ↔ d ∈ resDays t2 :=
    resInfo_isSome_iff (t2.drop 1) d
  constructor
  · rw [hA, resCombine_isSome, Bool.or_eq_true]
    exact or_congr hAttMem hResMem
  · intro rec hrec
    rw [hA] at hrec
    cases hI : resInfo (t2.drop 1) d with
    | none =>
      rw [hI] at hrec
      cases hAd : lookupShift (parseAttendingTable t1 []) d with
      | none =>
        rw [hAd] at hrec
        simp only [resCombine] at hrec
        exact Option.noConfusion hrec
      | some recA0 =>
        rw [hAd] at hrec
        simp only [resCombine] at hrec
        injection hrec with h1
        subst h1
        refine ⟨?_, ?_, ?_⟩
        · intro recA hA2
          injection hA2 with h2
          subst h2
          exact ⟨rfl, rfl, rfl⟩
        · intro recR hR
          rw [hSolo, hI] at hR
          simp only [resCombine] at hR
          exact Option.noConfusion hR
        · intro hres _
          rw [← hResMem, hI] at hres
          simp at hres
    | some info =>
      obtain ⟨mn, wd, roles⟩ := info
      cases hAd : lookupShift (parseAttendingTable t1 []) d with
      | some recA0 =>
        rw [hAd, hI] at hrec
        simp only [resCombine] at hrec
        injection hrec with h1
        subst h1
        refine ⟨?_, ?_, ?_⟩
        · intro recA hA2
          injection hA2 with h2
          subst h2
          exact ⟨rfl, rfl, rfl⟩
        · intro recR hR
          rw [hSolo, hI] at hR
          simp only [resCombine] at hR
          injection hR with h2
          subst h2
          exact ⟨rfl, rfl, rfl, rfl, rfl, rfl⟩
        · intro _ hnotatt
          exact absurd (hAttMem.mp (by rw [hAd]; rfl)) hnotatt
      | none =>
        rw [hAd, hI] at hrec
        simp only [resCombine] at hrec
        injection hrec with h1
        subst h1
        refine ⟨?_, ?_, ?_⟩
        · intro recA hA2
          exact Option.noConfusion hA2
        · intro recR hR
          rw [hSolo, hI] at hR
          simp only [resCombine] at hR
          injection hR with h2
          subst h2
          exact ⟨rfl, rfl, rfl, rfl, rfl, rfl⟩
        · intro _ _
          rfl

/-- Attending witness table for C3: only day 5. -/
def W3T1 : List DocxRow := [[("5".data), ("ΟΚΤ".data), ("Δε".data), ("Α".data)]]

/-- Resident witness table for C3: header, then days 5 and 6. -/
def W3T2 : List DocxRow :=
  [[("Η".data), [], [], [], [], []],
   [("5".data), ("ΟΚΤ".data), ("Δε".data), ("Μ5".data), ("".data), ("Τ5".data)],
   [("6".data), ("ΟΚΤ".data), ("Τρ".data), ("Μ6".data), ("μ6".data), ("Τ6".data)]]

/-- Merged record for day 6 of the C3 witness tables. -/
def W3rec6 : DailyShift :=
  { day := 6, month_name := "ΟΚΤ".data, weekday := "Τρ".data, attendings := [],
    major_shift := some ("Μ6".data), minor_shift := some ("μ6".data),
    tep_cardiologist := some ("Τ6".data) }

theorem claim3_merge_union_witness :
    W3rec6.attendings = [] ∧ (6 : Int) ∈ resDays W3T2 ∧ (6 : Int) ∉ attDays W3T1 := by
  have h := (claim3_merge_union W3T1 W3T2 6).2 W3rec6 (by decide)
  exact ⟨h.2.2 (by decide) (by decide), by decide, by decide⟩

/-!
Tokenizer claims (C6, C7).
-/

theorem mem_of_mem_strip (c : Char) (l : Str) (h : c ∈ strip l) : c ∈ l := by
  unfold strip at h
  have h1 := List.mem_reverse.mp h
  have h2 := (List.dropWhile_sublist isWs).mem h1
  have h3 := List.mem_reverse.mp h2
  exact (List.dropWhile_sublist isWs).mem h3

theorem hospitalKeys_ne_nil : ∀ p ∈ HOSPITAL_NAMES, p.1 ≠ [] := by decide

theorem extract_main (text : Str) (h : strip text ≠ []) :
    extractHospitalNames text = (cellFragments text).filterMap processLine := by
  have hb : (strip text).isEmpty = false := by
    rcases hs : strip text with _ | ⟨a, t⟩
    · exact absurd hs h
    · rfl
  simp [extractHospitalNames, hb]

theorem cellFragments_mentions (mentions : List Str) (hne : mentions ≠ [])
    (h1 : ∀ m ∈ mentions, '\n' ∉ m)
    (h2 : ∀ m ∈ mentions, containsSub ("Γ.Ν.".data) m = false) :
    cellFragments (List.intercalate ['\n'] mentions) = mentions := by
  unfold cellFragments
  rw [List.splitOn_intercalate mentions '\n' h1 hne]
  exact flatMap_eq_self_of _ _ (fun m hm => splitGN_no_token m (h2 m hm))

/-- Resolution of a mention against the registry as the tokenizer performs it:
first containment match on the prefix-reattached trimmed fragment. -/
def registryResolve (m : Str) : Option Str :=
  (HOSPITAL_NAMES.find? (fun p => containsSub p.1 (prepLine (strip m)))).map (fun p => p.2)

theorem processLine_matched (m : Str)
    (hab : ∃ p ∈ HOSPITAL_NAMES, containsSub p.1 (strip m) = true) :
    processLine m = registryResolve m ∧ (registryResolve m).isSome = true := by
  obtain ⟨p, hp, hpc⟩ := hab
  have hkey : p.1 ≠ [] := hospitalKeys_ne_nil p hp
  have hsne : strip m ≠ [] := fun h => (containsSub_ne_nil p.1 (strip m) hkey hpc) h
  have hbe : (strip m).isEmpty = false := by
    rcases hs : strip m with _ | ⟨a, t⟩
    · exact absurd hs hsne
    · rfl
  have hprep : containsSub p.1 (prepLine (strip m)) = true := by
    unfold prepLine
    split
    · exact containsSub_cons _ _ _
        (containsSub_cons _ _ _ (containsSub_cons _ _ _ (containsSub_cons _ _ _ hpc)))
    · exact hpc
  have hfind : (HOSPITAL_NAMES.find? (fun q => containsSub q.1 (prepLine (strip m)))).isSome
      = true := by
    rw [List.find?_isSome]
    exact ⟨p, hp, hprep⟩
  cases hf : HOSPITAL_NAMES.find? (fun q => containsSub q.1 (prepLine (strip m))) with
  | none =>
    rw [hf] at hfind
    simp at hfind
  | some q =>
    constructor
    · simp [processLine, hbe, hf, registryResolve]
    · rw [registryResolve, hf]
      rfl

/-- Counterexample to C6 as stated: the single newline-separated mention
`ΚΑΤ Γ.Ν.ΛΑΪΚΟ` contains a known registry abbreviation (`ΚΑΤ`), yet the
tokenizer returns 2 canonical names for it, not 1, because the embedded
`Γ.Ν.` token is also a split separator. -/
theorem claim6_counterexample :
    (∃ p ∈ HOSPITAL_NAMES, containsSub p.1 ("ΚΑΤ Γ.Ν.ΛΑΪΚΟ".data) = true)
    ∧ List.intercalate ['\n'] [("ΚΑΤ Γ.Ν.ΛΑΪΚΟ".data)] = ("ΚΑΤ Γ.Ν.ΛΑΪΚΟ".data)
    ∧ (extractHospitalNames ("ΚΑΤ Γ.Ν.ΛΑΪΚΟ".data)).length = 2 := by
  decide

/-- C6 (amended): for a cell of `N` newline-separated mentions, each containing
a known registry abbreviation and none containing the embedded separator token
`Γ.Ν.`, tokenization returns exactly `N` canonical names, in mention order —
the `i`-th output being the registry resolution of the `i`-th mention. -/
theorem claim6_amended_tokenization (mentions : List Str)
    (h1 : ∀ m ∈ mentions, '\n' ∉ m)
    (h2 : ∀ m ∈ mentions, containsSub ("Γ.Ν.".data) m = false)
    (h3 : ∀ m ∈ mentions, ∃ p ∈ HOSPITAL_NAMES, containsSub p.1 (strip m) = true) :
    extractHospitalNames (List.intercalate ['\n'] mentions)
        = mentions.map (fun m => (registryResolve m).getD [])
    ∧ ∀ n ∈ extractHospitalNames (List.intercalate ['\n'] mentions),
        ∃ p ∈ HOSPITAL_NAMES, n = p.2 := by
  rcases hm : mentions with _ | ⟨m0, rest⟩
  · refine ⟨by decide, ?_⟩
    intro n hn
    rw [show extractHospitalNames (List.intercalate ['\n'] ([] : List Str)) = [] from by decide]
      at hn
    exact absurd hn (List.not_mem_nil n)
  · have hne : m0 :: rest ≠ [] := by simp
    rw [← hm] at hne ⊢
    have hfrag := cellFragments_mentions mentions (hm ▸ hne) h1 h2
    have hstripne : strip (List.intercalate ['\n'] mentions) ≠ [] := by
      obtain ⟨p, hp, hpc⟩ := h3 m0 (by rw [hm]; exact List.mem_cons_self m0 rest)
      have hkey : p.1 ≠ [] := hospitalKeys_ne_nil p hp
      have hs0 : strip m0 ≠ [] := fun h => containsSub_ne_nil p.1 (strip m0) hkey hpc h
      intro hnil
      rw [strip_eq_nil_iff] at hnil
      apply hs0
      rw [strip_eq_nil_iff]
      intro c hc
      exact hnil c (mem_intercalate_chars '\n' mentions m0
        (by rw [hm]; exact List.mem_cons_self m0 rest) c hc)
    have hmap : extractHospitalNames (List.intercalate ['\n'] mentions)
        = mentions.map (fun m => (registryResolve m).getD []) := by
      rw [extract_main _ hstripne, hfrag]
      apply filterMap_eq_map_of
      intro m hm2
      have h := processLine_matched m (h3 m hm2)
      rcases Option.isSome_iff_exists.mp h.2 with ⟨y, hy⟩
      rw [h.1, hy]
      rfl
    refine ⟨hmap, ?_⟩
    intro n hn
    rw [hmap] at hn
    rcases List.mem_map.mp hn with ⟨m, hm2, rfl⟩
    cases hf : HOSPITAL_NAMES.find? (fun p => containsSub p.1 (prepLine (strip m))) with
    | none =>
      have h := (processLine_matched m (h3 m hm2)).2
      rw [registryResolve, hf] at h
      simp at h
    | some q =>
      refine ⟨q, List.mem_of_find?_eq_some hf, ?_⟩
      rw [registryResolve, hf]
      rfl

theorem claim6_amended_tokenization_witness :
    extractHospitalNames (List.intercalate ['\n'] [("ΚΑΤ".data), (" ΕΛΠΙΣ ".data)])
      = [("Γενικό Νοσοκομείο Αθηνών «ΚΑΤ»".data), ("Γενικό Νοσοκομείο Αθηνών «Ελπίς»".data)] := by
  have h := (claim6_amended_tokenization [("ΚΑΤ".data), (" ΕΛΠΙΣ ".data)]
    (by decide) (by decide) (by decide)).1
  rw [h]
  decide

/-- Fragment-to-cell character containment for the tokenizer splitters. -/
theorem mem_cellFragments_chars (text ℓ : Str) (hmem : ℓ ∈ cellFragments text)
    (c : Char) (hc : c ∈ ℓ) : c ∈ text := by
  unfold cellFragments at hmem
  rcases List.mem_flatMap.mp hmem with ⟨piece, hp, hin⟩
  exact mem_splitOn_chars '\n' text piece hp c (mem_splitGN_chars piece ℓ hin c hc)

/-- C7: a (nonempty, prefix-reattached) fragment that matches no registry
abbreviation is kept verbatim in the tokenizer output exactly when it still
contains one of the recognized institutional prefix substrings, and otherwise
contributes nothing. -/
theorem claim7_unmatched_fragment (text ℓ : Str) (hmem : ℓ ∈ cellFragments text)
    (hne : strip ℓ ≠ [])
    (hno : ∀ p ∈ HOSPITAL_NAMES, containsSub p.1 (prepLine (strip ℓ)) = false) :
    (instLike (prepLine (strip ℓ)) = true →
        processLine ℓ = some (prepLine (strip ℓ))
        ∧ (prepLine (strip ℓ)) ∈ extractHospitalNames text)
    ∧ (instLike (prepLine (strip ℓ)) = false → processLine ℓ = none) := by
  have hbe : (strip ℓ).isEmpty = false := by
    rcases hs : strip ℓ with _ | ⟨a, t⟩
    · exact absurd hs hne
    · rfl
  have hfind : HOSPITAL_NAMES.find? (fun p => containsSub p.1 (prepLine (strip ℓ))) = none :=
    List.find?_eq_none.mpr (fun p hp => by simp [hno p hp])
  have hstext : strip text ≠ [] := by
    intro h0
    rw [strip_eq_nil_iff] at h0
    apply hne
    rw [strip_eq_nil_iff]
    intro c hc
    exact h0 c (mem_cellFragments_chars text ℓ hmem c hc)
  constructor
  · intro hil
    have hpl : processLine ℓ = some (prepLine (strip ℓ)) := by
      simp [processLine, hbe, hfind, hil]
    refine ⟨hpl, ?_⟩
    rw [extract_main text hstext]
    exact List.mem_filterMap.mpr ⟨ℓ, hmem, hpl⟩
  · intro hil
    simp [processLine, hbe, hfind, hil]

theorem claim7_unmatched_fragment_witness :
    processLine ("ΝΟΣ. Α".data) = some ("Γ.Ν.ΝΟΣ. Α".data)
    ∧ ("Γ.Ν.ΝΟΣ. Α".data) ∈ extractHospitalNames ("ΝΟΣ. Α".data) :=
  (claim7_unmatched_fragment ("ΝΟΣ. Α".data) ("ΝΟΣ. Α".data)
    (by decide) (by decide) (by decide)).1 (by decide)

/-!
Duty-table extractor claims (C1, C8).
-/

/-- The (hospital, specialty, time-slot, date) key of a duty record. -/
def hospKey (h : Hospital) : Str × Str × Str × Str :=
  (h.name, h.specialty, h.time_slot, h.on_duty_date)

/-- Canonical record for the `ΚΑΤ` registry entry used by the C1
counterexample. -/
def KATrec : Hospital :=
  { name := "Γενικό Νοσοκομείο Αθηνών «ΚΑΤ»".data,
    specialty := "Καρδιολογία / Cardiology".data,
    time_slot := "08:00-14:30".data,
    on_duty_date := "2025-10-14".data }

/-- Counterexample to C1 as stated: a cell holding the same abbreviation twice
(`ΚΑΤ\nΚΑΤ`) makes `parse_pdf` emit two records with the identical
(hospital, specialty, time-slot, date) key — no deduplication happens. -/
theorem claim1_counterexample :
    parsePdf [[[some ("Κλινικές".data)],
               [some ("Καρδιολογική".data), some ("ΚΑΤ\nΚΑΤ".data)]]] ("2025-10-14".data)
      = [KATrec, KATrec]
    ∧ ¬ List.Pairwise (fun a b => hospKey a ≠ hospKey b) [KATrec, KATrec] := by
  constructor
  · decide
  · intro h
    exact (List.pairwise_cons.mp h).1 KATrec (List.mem_cons_self KATrec []) rfl

/-- Number of institution-name tokens the tokenizer yields for one time-slot
cell of a duty-table row. -/
def cellTokenCount (row : PdfRow) (slot : Str × Nat) : Nat :=
  if slot.2 < row.length then
    match row.getD slot.2 none with
    | some cell => if cell.isEmpty then 0 else (extractHospitalNames cell).length
    | none => 0
  else 0

/-- Number of tokens contributed by one data row. -/
def rowTokenCount (row : PdfRow) : Nat :=
  if row.length < 2 then 0
  else if (rowSpecialty row).isEmpty || rowSpecialty row = headerMarker then 0
  else (timeSlots.map (cellTokenCount row)).sum

/-- Number of tokens contributed by one extracted table. -/
def tableTokenCount (table : PdfTable) : Nat :=
  if table.length < 2 then 0
  else
    match (table.take 5).findIdx? rowHasMarker with
    | none => 0
    | some i => ((table.drop (i + 1)).map rowTokenCount).sum

theorem parseRow_length (dd : Str) (row : PdfRow) :
    (parseRowRecords dd row).length = rowTokenCount row := by
  unfold parseRowRecords rowTokenCount
  split_ifs with h1 h2
  · rfl
  · rfl
  · rw [List.length_flatMap]
    congr 1
    apply List.map_congr_left
    intro slot _
    simp only [Function.comp_apply]
    unfold cellTokenCount
    split_ifs with hin
    · cases hc : row.getD slot.2 none with
      | none => rfl
      | some cell =>
        by_cases hce : cell.isEmpty = true
        · simp [hce]
        · simp [hce, List.length_map]
    · rfl

theorem parseRow_date (dd : Str) (row : PdfRow) :
    ∀ h ∈ parseRowRecords dd row, h.on_duty_date = dd := by
  intro h hm
  unfold parseRowRecords at hm
  split_ifs at hm
  · exact absurd hm (List.not_mem_nil h)
  · exact absurd hm (List.not_mem_nil h)
  · rcases List.mem_flatMap.mp hm with ⟨slot, _, hin⟩
    split at hin
    · split at hin
      · split at hin
        · exact absurd hin (List.not_mem_nil h)
        · rcases List.mem_map.mp hin with ⟨n, _, rfl⟩
          rfl
      · exact absurd hin (List.not_mem_nil h)
    · exact absurd hin (List.not_mem_nil h)

theorem parseTable_length (dd : Str) (table : PdfTable) :
    (parseTableRecords dd table).length = tableTokenCount table := by
  unfold parseTableRecords tableTokenCount
  split_ifs with h1
  · rfl
  · cases hf : (table.take 5).findIdx? rowHasMarker with
    | none => rfl
    | some i =>
      rw [List.length_flatMap]
      congr 1
      apply List.map_congr_left
      intro row _
      exact parseRow_length dd row

/-- C1 (amended): `parse_pdf` performs no deduplication — it emits exactly one
record per institution-name token the Cell Tokenizer yields across all
processed cells (so records with equal (hospital, specialty, time-slot, date)
keys can repeat), every record being stamped with the target date. -/
theorem claim1_amended_no_dedup (tables : List PdfTable) (dd : Str) :
    (parsePdf tables dd).length = (tables.map tableTokenCount).sum
    ∧ ∀ h ∈ parsePdf tables dd, h.on_duty_date = dd := by
  constructor
  · unfold parsePdf
    rw [List.length_flatMap]
    congr 1
    apply List.map_congr_left
    intro table _
    exact parseTable_length dd table
  · intro h hm
    rcases List.mem_flatMap.mp hm with ⟨table, _, hin⟩
    unfold parseTableRecords at hin
    split_ifs at hin
    · exact absurd hin (List.not_mem_nil h)
    · split at hin
      · exact absurd hin (List.not_mem_nil h)
      · rcases List.mem_flatMap.mp hin with ⟨row, _, hin2⟩
        exact parseRow_date dd row h hin2

theorem claim1_amended_no_dedup_witness :
    (parsePdf [[[some ("Κλινικές".data)],
                [some ("Καρδιολογική".data), some ("ΚΑΤ\nΚΑΤ".data)]]]
        ("2025-10-14".data)).length
      = ([[[some ("Κλινικές".data)],
           [some ("Καρδιολογική".data), some ("ΚΑΤ\nΚΑΤ".data)]]].map tableTokenCount).sum
    ∧ KATrec.on_duty_date = ("2025-10-14".data) := by
  have h := claim1_amended_no_dedup
    [[[some ("Κλινικές".data)], [some ("Καρδιολογική".data), some ("ΚΑΤ\nΚΑΤ".data)]]]
    ("2025-10-14".data)
  exact ⟨h.1, h.2 KATrec (by decide)⟩

/-- Header row of the C8 scenario table. -/
def C8header : PdfRow := [some ("Κλινικές".data)]

/-- Data row of the C8 scenario. -/
def C8row : PdfRow :=
  [some ("Καρδιολογική".data), some ("".data), some ("ΝΟΣ. Α".data),
   some ("".data), some ("".data), some ("ΝΟΣ. Β".data)]

/-- C8: the scenario row yields exactly two records under the fixed
column-to-time-slot table: the tokenizer resolution of `ΝΟΣ. Α` (the
placeholder matches no registry abbreviation, so its canonical form is the
prefix-reattached pass-through `Γ.Ν.ΝΟΣ. Α`) at `08:00-16:00` (column 2), and
that of `ΝΟΣ. Β` at `08:00-08:00 επομένης` (column 5), both with the
normalized Καρδιολογία/Cardiology specialty, for any duty date. -/
theorem claim8_cardiology_row (dd : Str) :
    parseRowRecords dd C8row
      = [{ name := "Γ.Ν.ΝΟΣ. Α".data, specialty := "Καρδιολογία / Cardiology".data,
           time_slot := "08:00-16:00".data, on_duty_date := dd },
         { name := "Γ.Ν.ΝΟΣ. Β".data, specialty := "Καρδιολογία / Cardiology".data,
           time_slot := "08:00-08:00 επομένης".data, on_duty_date := dd }]
    ∧ parsePdf [[C8header, C8row]] dd
      = [{ name := "Γ.Ν.ΝΟΣ. Α".data, specialty := "Καρδιολογία / Cardiology".data,
           time_slot := "08:00-16:00".data, on_duty_date := dd },
         { name := "Γ.Ν.ΝΟΣ. Β".data, specialty := "Καρδιολογία / Cardiology".data,
           time_slot := "08:00-08:00 επομένης".data, on_duty_date := dd }] :=
  ⟨rfl, rfl⟩
